import Mathlib

/-!
Shallow embedding of the review/keyword analytics engine of the app-store
MCP server (`server.js` and the review-insights variant in
`src/unnamed/part_000`), together with theorems settling the frozen claims.

JavaScript semantics that the embedded fragments rely on:
- `Number` division by zero yields `NaN` (for `0/0`) or a signed infinity;
  every comparison involving `NaN` is false (modelled by `JSNum`).
- Plain objects used as maps enumerate integer-like keys first, in
  ascending numeric order, and then the remaining string keys in insertion
  order (ECMA-262 `OrdinaryOwnPropertyKeys`; modelled by `jsEntries`).
- `Array.prototype.sort` is stable (ES2019) and sorts in place, mutating
  the array it is called on.
-/

namespace MCPAppStore

open List

/- The rational operations of this toolchain are marked irreducible, which
blocks `decide` on concrete rational arithmetic; restore reducibility
locally (the kernel is unaffected by reducibility attributes). -/
set_option allowUnsafeReducibility true

attribute [local semireducible] Rat.add Rat.mul Rat.div Rat.sub Rat.neg Rat.inv
  Rat.ofScientific

/-- JavaScript number results relevant to the engine: `NaN`, the two
infinities, and finite values modelled as rationals. -/
inductive JSNum where
  | nan : JSNum
  | posInf : JSNum
  | negInf : JSNum
  | val : ℚ → JSNum
deriving DecidableEq

/-- JavaScript division of finite numbers: `0/0` is `NaN`, `a/0` is a signed
infinity for `a ≠ 0`, otherwise ordinary rational division. -/
def jsDiv (a b : ℚ) : JSNum :=
  if b = 0 then
    if a = 0 then JSNum.nan else if 0 < a then JSNum.posInf else JSNum.negInf
  else JSNum.val (a / b)

/-- JavaScript `<` on numbers: any comparison with `NaN` is false. -/
def jsLtB : JSNum → JSNum → Bool
  | JSNum.nan, _ => false
  | _, JSNum.nan => false
  | JSNum.val a, JSNum.val b => decide (a < b)
  | JSNum.posInf, _ => false
  | _, JSNum.posInf => true
  | JSNum.negInf, JSNum.negInf => false
  | JSNum.negInf, _ => true
  | _, JSNum.negInf => false

/-- JavaScript `>` on numbers. -/
def jsGtB (a b : JSNum) : Bool := jsLtB b a

/-- Key list of a JavaScript object modelled as an insertion-ordered
association list. -/
def jsKeys {β : Type} (o : List (String × β)) : List String := o.map Prod.fst

/-- Property read (`o[k]`), `none` when the key is absent. -/
def jsLookup {β : Type} : List (String × β) → String → Option β
  | [], _ => none
  | p :: ps, k => if p.1 = k then some p.2 else jsLookup ps k

/-- Property write (`o[k] = v`): an existing key keeps its insertion
position and gets the new value, a new key is appended. -/
def jsSet {β : Type} : List (String × β) → String → β → List (String × β)
  | [], k, v => [(k, v)]
  | p :: ps, k, v => if p.1 = k then (k, v) :: ps else p :: jsSet ps k v

/-- `o[k] = (o[k] || 0) + n`, the counting idiom used throughout the code. -/
def jsIncrBy (o : List (String × Nat)) (k : String) (n : Nat) :
    List (String × Nat) :=
  jsSet o k ((jsLookup o k).getD 0 + n)

/-- Build an object by assigning a list of entries in order (the `reduce`
into `{}` idiom and the object-spread merge). -/
def objFromList {β : Type} (l : List (String × β)) : List (String × β) :=
  l.foldl (fun o p => jsSet o p.1 p.2) []

/-- Numeric value of a digit string. -/
def strToNat (s : String) : Nat :=
  s.data.foldl (fun n c => n * 10 + (c.toNat - 48)) 0

/-- Whether a string is a canonical array-index key (ECMA-262): a digit
string with no leading zero whose value is below `2^32 - 1`. Such keys are
enumerated first, in ascending numeric order. -/
def isArrayIndexKey (s : String) : Bool :=
  !s.data.isEmpty && s.data.all Char.isDigit &&
    (s.data == ['0'] || !(s.data.head? == some '0')) &&
    decide (strToNat s < 4294967295)

/-- Insert into a descending-sorted list, after all entries with a
strictly larger key and before equal ones (stable). -/
def insDesc {α : Type} (key : α → Nat) (x : α) : List α → List α
  | [] => [x]
  | y :: ys => if key x < key y then y :: insDesc key x ys else x :: y :: ys

/-- Stable sort by a `Nat` key, descending: the model of
`.sort((a, b) => b.count - a.count)`. -/
def sortDesc {α : Type} (key : α → Nat) : List α → List α
  | [] => []
  | x :: xs => insDesc key x (sortDesc key xs)

/-- Insert into an ascending-sorted list, before the first entry with a
key that is not smaller (stable). -/
def insAsc {α : Type} (key : α → Nat) (x : α) : List α → List α
  | [] => [x]
  | y :: ys => if key y < key x then y :: insAsc key x ys else x :: y :: ys

/-- Stable sort by a `Nat` key, ascending. -/
def sortAsc {α : Type} (key : α → Nat) : List α → List α
  | [] => []
  | x :: xs => insAsc key x (sortAsc key xs)

/-- Enumeration order of a JavaScript object (`Object.keys` / `Object.entries`
/ spread): array-index keys first in ascending numeric order, then the
remaining keys in insertion order. -/
def jsEntries {β : Type} (o : List (String × β)) : List (String × β) :=
  sortAsc (fun p => strToNat p.1) (o.filter (fun p => isArrayIndexKey p.1)) ++
    o.filter (fun p => !(isArrayIndexKey p.1))

/-! ### Elementary facts about the object model and the stable sorts -/

@[simp] lemma jsKeys_nil {β : Type} : jsKeys ([] : List (String × β)) = [] := rfl

@[simp] lemma jsKeys_cons {β : Type} (p : String × β) (ps : List (String × β)) :
    jsKeys (p :: ps) = p.1 :: jsKeys ps := rfl

@[simp] lemma jsKeys_append {β : Type} (l₁ l₂ : List (String × β)) :
    jsKeys (l₁ ++ l₂) = jsKeys l₁ ++ jsKeys l₂ := by
  simp [jsKeys]

lemma mem_jsKeys_jsSet {β : Type} (o : List (String × β)) (k a : String) (v : β) :
    a ∈ jsKeys (jsSet o k v) ↔ a ∈ jsKeys o ∨ a = k := by
  induction o with
  | nil => simp [jsSet]
  | cons p ps ih =>
    by_cases h : p.1 = k
    · subst h
      rw [show jsSet (p :: ps) p.1 v = (p.1, v) :: ps from by simp [jsSet]]
      simp only [jsKeys_cons, List.mem_cons]
      tauto
    · simp only [jsSet, if_neg h, jsKeys_cons, List.mem_cons, ih]
      tauto

lemma jsLookup_jsSet_self {β : Type} (o : List (String × β)) (k : String) (v : β) :
    jsLookup (jsSet o k v) k = some v := by
  induction o with
  | nil => simp [jsSet, jsLookup]
  | cons p ps ih =>
    by_cases h : p.1 = k
    · simp [jsSet, h, jsLookup]
    · simp [jsSet, h, jsLookup, ih]

lemma jsLookup_jsSet_ne {β : Type} (o : List (String × β)) (k a : String) (v : β)
    (h : a ≠ k) : jsLookup (jsSet o k v) a = jsLookup o a := by
  have h' : k ≠ a := Ne.symm h
  induction o with
  | nil => simp [jsSet, jsLookup, h']
  | cons p ps ih =>
    by_cases hp : p.1 = k
    · subst hp
      simp [jsSet, jsLookup, h']
    · simp [jsSet, hp, jsLookup, ih]

lemma mem_jsKeys_of_mem {β : Type} {o : List (String × β)} {a : String} {c : β}
    (h : (a, c) ∈ o) : a ∈ jsKeys o :=
  List.mem_map_of_mem Prod.fst h

lemma jsKeys_nodup_jsSet {β : Type} (o : List (String × β)) (k : String) (v : β)
    (h : (jsKeys o).Nodup) : (jsKeys (jsSet o k v)).Nodup := by
  induction o with
  | nil => simp [jsSet]
  | cons p ps ih =>
    simp only [jsKeys_cons, List.nodup_cons] at h
    by_cases hp : p.1 = k
    · subst hp
      rw [show jsSet (p :: ps) p.1 v = (p.1, v) :: ps from by simp [jsSet]]
      simp only [jsKeys_cons, List.nodup_cons]
      exact h
    · simp only [jsSet, if_neg hp, jsKeys_cons, List.nodup_cons]
      refine ⟨fun hmem => ?_, ih h.2⟩
      rcases (mem_jsKeys_jsSet ps k p.1 v).mp hmem with hin | heq
      · exact h.1 hin
      · exact hp heq

lemma jsLookup_isSome_iff {β : Type} (o : List (String × β)) (a : String) :
    (jsLookup o a).isSome ↔ a ∈ jsKeys o := by
  induction o with
  | nil => simp [jsLookup]
  | cons p ps ih =>
    by_cases h : p.1 = a
    · simp [jsLookup, h]
    · simp [jsLookup, h, ih, Ne.symm h]

lemma jsLookup_eq_some_of_mem_nodup {β : Type} {o : List (String × β)}
    {a : String} {c : β} (hn : (jsKeys o).Nodup) (h : (a, c) ∈ o) :
    jsLookup o a = some c := by
  induction o with
  | nil => simp at h
  | cons p ps ih =>
    simp only [jsKeys_cons, List.nodup_cons] at hn
    rcases List.mem_cons.mp h with heq | hmem
    · subst heq; simp [jsLookup]
    · have hne : p.1 ≠ a := by
        intro hp
        exact hn.1 (hp ▸ mem_jsKeys_of_mem hmem)
      simp [jsLookup, hne, ih hn.2 hmem]

lemma getD_jsLookup_jsIncrBy (o : List (String × Nat)) (k a : String) (n : Nat) :
    (jsLookup (jsIncrBy o k n) a).getD 0 =
      (jsLookup o a).getD 0 + (if a = k then n else 0) := by
  by_cases h : a = k
  · subst h; simp [jsIncrBy, jsLookup_jsSet_self]
  · simp [jsIncrBy, jsLookup_jsSet_ne o k a _ h, h]

lemma mem_jsKeys_jsIncrBy (o : List (String × Nat)) (k a : String) (n : Nat) :
    a ∈ jsKeys (jsIncrBy o k n) ↔ a ∈ jsKeys o ∨ a = k :=
  mem_jsKeys_jsSet o k a _

/-- Folding the `o[w] = (o[w] || 0) + 1` idiom over a word list adds the
occurrence count of each word. -/
lemma bump_fold_getD (ws : List String) (o : List (String × Nat)) (a : String) :
    (jsLookup (ws.foldl (fun o w => jsIncrBy o w 1) o) a).getD 0 =
      (jsLookup o a).getD 0 + ws.count a := by
  induction ws generalizing o with
  | nil => simp
  | cons w ws ih =>
    simp only [List.foldl_cons, ih, getD_jsLookup_jsIncrBy, List.count_cons,
      beq_iff_eq]
    by_cases h : a = w
    · subst h; simp; omega
    · simp [h, Ne.symm h]

lemma bump_fold_memKeys (ws : List String) (o : List (String × Nat)) (a : String) :
    a ∈ jsKeys (ws.foldl (fun o w => jsIncrBy o w 1) o) ↔
      a ∈ jsKeys o ∨ a ∈ ws := by
  induction ws generalizing o with
  | nil => simp
  | cons w ws ih =>
    simp only [List.foldl_cons, ih, mem_jsKeys_jsIncrBy, List.mem_cons]
    tauto

lemma bump_fold_nodup (ws : List String) (o : List (String × Nat))
    (h : (jsKeys o).Nodup) :
    (jsKeys (ws.foldl (fun o w => jsIncrBy o w 1) o)).Nodup := by
  induction ws generalizing o with
  | nil => simpa
  | cons w ws ih => exact ih _ (jsKeys_nodup_jsSet _ _ _ h)

/-- A conditional count loop is the unconditional loop over the filtered list. -/
lemma cond_bump_fold_eq (p : String → Bool) (ws : List String)
    (o : List (String × Nat)) :
    ws.foldl (fun o w => if p w then jsIncrBy o w 1 else o) o =
      (ws.filter p).foldl (fun o w => jsIncrBy o w 1) o := by
  induction ws generalizing o with
  | nil => rfl
  | cons w ws ih =>
    by_cases h : p w <;> simp [List.filter_cons, h, ih]

lemma foldl_jsSet_memKeys {β : Type} (l : List (String × β))
    (o : List (String × β)) (a : String) :
    a ∈ jsKeys (l.foldl (fun o p => jsSet o p.1 p.2) o) ↔
      a ∈ jsKeys o ∨ a ∈ jsKeys l := by
  induction l generalizing o with
  | nil => simp
  | cons p l ih =>
    simp only [List.foldl_cons, ih, mem_jsKeys_jsSet, jsKeys_cons, List.mem_cons]
    tauto

lemma foldl_jsSet_nodup {β : Type} (l : List (String × β))
    (o : List (String × β)) (h : (jsKeys o).Nodup) :
    (jsKeys (l.foldl (fun o p => jsSet o p.1 p.2) o)).Nodup := by
  induction l generalizing o with
  | nil => simpa
  | cons p l ih => exact ih _ (jsKeys_nodup_jsSet _ _ _ h)

lemma objFromList_memKeys {β : Type} (l : List (String × β)) (a : String) :
    a ∈ jsKeys (objFromList l) ↔ a ∈ jsKeys l := by
  simpa [objFromList] using foldl_jsSet_memKeys l [] a

lemma objFromList_nodup {β : Type} (l : List (String × β)) :
    (jsKeys (objFromList l)).Nodup :=
  foldl_jsSet_nodup l [] (by simp)

lemma jsSet_of_not_mem {β : Type} (o : List (String × β)) (k : String) (v : β)
    (h : k ∉ jsKeys o) : jsSet o k v = o ++ [(k, v)] := by
  induction o with
  | nil => rfl
  | cons p ps ih =>
    simp only [jsKeys_cons, List.mem_cons] at h
    push_neg at h
    simp [jsSet, Ne.symm h.1, ih h.2]

lemma foldl_jsSet_eq_append {β : Type} (l : List (String × β)) :
    ∀ o : List (String × β), (jsKeys l).Nodup →
    (∀ k ∈ jsKeys l, k ∉ jsKeys o) →
    l.foldl (fun o p => jsSet o p.1 p.2) o = o ++ l := by
  induction l with
  | nil => intro o _ _; simp
  | cons p l ih =>
    intro o hn hd
    simp only [jsKeys_cons, List.nodup_cons] at hn
    have hp : p.1 ∉ jsKeys o := hd p.1 (by simp)
    have hside : ∀ k ∈ jsKeys l, k ∉ jsKeys (o ++ [(p.1, p.2)]) := by
      intro k hk
      have h1 : k ∉ jsKeys o := hd k (by simp [hk])
      have h2 : k ≠ p.1 := fun hkp => hn.1 (hkp ▸ hk)
      simp [h1, h2]
    rw [List.foldl_cons, jsSet_of_not_mem o p.1 p.2 hp, ih _ hn.2 hside]
    simp

lemma objFromList_eq_self {β : Type} (l : List (String × β))
    (h : (jsKeys l).Nodup) : objFromList l = l := by
  simpa [objFromList] using foldl_jsSet_eq_append l [] h (by simp)

lemma insDesc_perm {α : Type} (key : α → Nat) (x : α) (l : List α) :
    insDesc key x l ~ x :: l := by
  induction l with
  | nil => rfl
  | cons y ys ih =>
    by_cases h : key x < key y
    · simpa [insDesc, h] using ((ih.cons y).trans (List.Perm.swap x y ys))
    · simp [insDesc, h]

lemma sortDesc_perm {α : Type} (key : α → Nat) (l : List α) :
    sortDesc key l ~ l := by
  induction l with
  | nil => rfl
  | cons x xs ih => exact (insDesc_perm key x (sortDesc key xs)).trans (ih.cons x)

lemma insDesc_pairwise {α : Type} (key : α → Nat) (x : α) (l : List α)
    (h : l.Pairwise (fun a b => key b ≤ key a)) :
    (insDesc key x l).Pairwise (fun a b => key b ≤ key a) := by
  induction l with
  | nil => simp [insDesc]
  | cons y ys ih =>
    rcases List.pairwise_cons.mp h with ⟨hy, hys⟩
    by_cases hlt : key x < key y
    · simp only [insDesc, if_pos hlt]
      refine List.pairwise_cons.mpr ⟨?_, ih hys⟩
      intro z hz
      rcases List.mem_cons.mp ((insDesc_perm key x ys).mem_iff.mp hz) with rfl | hz'
      · exact Nat.le_of_lt hlt
      · exact hy z hz'
    · simp only [insDesc, if_neg hlt]
      refine List.pairwise_cons.mpr ⟨?_, h⟩
      intro z hz
      rcases List.mem_cons.mp hz with hz | hz
      · subst hz; omega
      · have := hy z hz; omega

lemma sortDesc_pairwise {α : Type} (key : α → Nat) (l : List α) :
    (sortDesc key l).Pairwise (fun a b => key b ≤ key a) := by
  induction l with
  | nil => simp [sortDesc]
  | cons x xs ih => exact insDesc_pairwise key x _ ih

lemma sortDesc_of_pairwise {α : Type} (key : α → Nat) (l : List α)
    (h : l.Pairwise (fun a b => key b ≤ key a)) : sortDesc key l = l := by
  induction l with
  | nil => rfl
  | cons x xs ih =>
    rcases List.pairwise_cons.mp h with ⟨hx, hxs⟩
    simp only [sortDesc, ih hxs]
    cases xs with
    | nil => rfl
    | cons y ys =>
      have : ¬ key x < key y := by
        have := hx y (by simp); omega
      simp [insDesc, this]

lemma insAsc_perm {α : Type} (key : α → Nat) (x : α) (l : List α) :
    insAsc key x l ~ x :: l := by
  induction l with
  | nil => rfl
  | cons y ys ih =>
    by_cases h : key y < key x
    · simpa [insAsc, h] using ((ih.cons y).trans (List.Perm.swap x y ys))
    · simp [insAsc, h]

lemma sortAsc_perm {α : Type} (key : α → Nat) (l : List α) :
    sortAsc key l ~ l := by
  induction l with
  | nil => rfl
  | cons x xs ih => exact (insAsc_perm key x (sortAsc key xs)).trans (ih.cons x)

lemma jsEntries_perm {β : Type} (o : List (String × β)) : jsEntries o ~ o := by
  refine ((sortAsc_perm _ _).append_right _).trans ?_
  exact List.filter_append_perm _ o

/-! ## Tokenizer

Both analysis paths tokenize with `text.toLowerCase().match(/\b(\w+)\b/g)`,
whose matches are exactly the maximal runs of word characters
(`[a-z0-9_]` after lowercasing); a null match result is replaced by `[]`. -/

/-- JavaScript `\w`: ASCII alphanumerics and underscore. -/
def isWordChar (c : Char) : Bool := c.isAlphanum || c == '_'

/-- Accumulating scanner producing the maximal word-character runs. -/
def wordRunsAux : List Char → List Char → List (List Char)
  | [], acc => if acc.isEmpty then [] else [acc.reverse]
  | c :: cs, acc =>
    if isWordChar c then wordRunsAux cs (c :: acc)
    else if acc.isEmpty then wordRunsAux cs []
    else acc.reverse :: wordRunsAux cs []

/-- `text.toLowerCase().match(/\b(\w+)\b/g) || []`. -/
def jsWordMatches (s : String) : List String :=
  (wordRunsAux (s.data.map Char.toLower) []).map (fun cs => String.mk cs)

/-! ## Sentiment classifier (`analyzeSentiment` in `server.js`) -/

/-- Positive lexicon of `analyzeSentiment`. -/
def positiveWords : List String :=
  ["good", "great", "excellent", "awesome", "amazing", "love", "best",
   "perfect", "fantastic", "wonderful", "happy", "easy", "helpful",
   "recommend", "recommended", "nice", "beautiful", "fun", "enjoy",
   "worth", "favorite", "improvement", "improved", "better", "useful"]

/-- Negative lexicon of `analyzeSentiment`. -/
def negativeWords : List String :=
  ["bad", "terrible", "awful", "horrible", "poor", "worst", "waste",
   "useless", "difficult", "hate", "crash", "bug", "problem", "issue",
   "disappointing", "disappointed", "fix", "error", "fail", "fails",
   "wrong", "frustrating", "slow", "expensive", "annoying", "boring"]

/-- `analyzeSentiment(text)` from `server.js`: guard on falsy text, count
lexicon hits over the word tokens, then the five-way threshold chain. -/
def analyzeSentiment (text : Option String) : String :=
  match text with
  | none => "neutral"
  | some s =>
    if s = "" then "neutral"
    else
      let words := jsWordMatches s
      let positiveCount := (words.filter (fun w => positiveWords.contains w)).length
      let negativeCount := (words.filter (fun w => negativeWords.contains w)).length
      if positiveCount > negativeCount * 2 then "positive"
      else if negativeCount > positiveCount * 2 then "negative"
      else if positiveCount > negativeCount then "somewhat positive"
      else if negativeCount > positiveCount then "somewhat negative"
      else "neutral"

/-- Number of positive-lexicon hits of a (possibly missing) text. -/
def sentPosCount (t : Option String) : Nat :=
  match t with
  | none => 0
  | some s => ((jsWordMatches s).filter (fun w => positiveWords.contains w)).length

/-- Number of negative-lexicon hits of a (possibly missing) text. -/
def sentNegCount (t : Option String) : Nat :=
  match t with
  | none => 0
  | some s => ((jsWordMatches s).filter (fun w => negativeWords.contains w)).length

/-- The decision rule as the specification states it (§4.4): positive when
`positiveCount` exceeds twice `negativeCount` (written `negativeCount * 2`
as in the source), negative symmetrically, then the two `somewhat` levels,
else neutral. -/
def specFiveLevel (p n : Nat) : String :=
  if p > n * 2 then "positive"
  else if n > p * 2 then "negative"
  else if p > n then "somewhat positive"
  else if n > p then "somewhat negative"
  else "neutral"

lemma analyzeSentiment_eq_spec (t : Option String) :
    analyzeSentiment t = specFiveLevel (sentPosCount t) (sentNegCount t) := by
  cases t with
  | none => rfl
  | some s =>
    by_cases hs : s = ""
    · subst hs; rfl
    · simp only [analyzeSentiment, sentPosCount, sentNegCount]
      rw [if_neg hs]
      rfl

lemma specFiveLevel_eq_positive_iff (p n : Nat) :
    specFiveLevel p n = "positive" ↔ p > n * 2 := by
  unfold specFiveLevel
  by_cases h1 : p > n * 2
  · simp [h1]
  · rw [if_neg h1]
    constructor
    · intro h
      by_cases h2 : n > p * 2
      · rw [if_pos h2] at h; exact absurd h (by decide)
      · rw [if_neg h2] at h
        by_cases h3 : p > n
        · rw [if_pos h3] at h; exact absurd h (by decide)
        · rw [if_neg h3] at h
          by_cases h4 : n > p
          · rw [if_pos h4] at h; exact absurd h (by decide)
          · rw [if_neg h4] at h; exact absurd h (by decide)
    · intro h; exact absurd h h1

/-- C1: the lexicon-based classifier follows the five-level rule exactly:
it equals the specification's decision table on the lexicon hit counts, it
returns `"positive"` exactly when the positive count exceeds twice the
negative count, a 2-vs-1 text is `"somewhat positive"`, a 3-vs-1 text is
`"positive"`, and empty or missing text is `"neutral"`. -/
theorem claim1_sentiment_rule :
    (∀ t : Option String,
      analyzeSentiment t = specFiveLevel (sentPosCount t) (sentNegCount t)) ∧
    (∀ t : Option String,
      analyzeSentiment t = "positive" ↔ sentPosCount t > sentNegCount t * 2) ∧
    analyzeSentiment (some "good nice bad") = "somewhat positive" ∧
    analyzeSentiment (some "good nice fun bad") = "positive" ∧
    analyzeSentiment none = "neutral" ∧
    analyzeSentiment (some "") = "neutral" := by
  refine ⟨analyzeSentiment_eq_spec, ?_, by decide, by decide, rfl, rfl⟩
  intro t
  rw [analyzeSentiment_eq_spec t]
  exact specFiveLevel_eq_positive_iff _ _

/-! ## Keyword extraction

`extractKeywords` lives in the `analyze_reviews` handler of `server.js`;
`extractReviewKeywords` lives in the review-insights variant
(`src/unnamed/part_000`). -/

/-- Stop-word list of `extractKeywords` in `server.js`. -/
def srvStopWords : List String :=
  ["i", "me", "my", "myself", "we", "our", "ours", "ourselves",
   "you", "your", "yours", "yourself", "yourselves", "he", "him",
   "his", "himself", "she", "her", "hers", "herself", "it", "its",
   "itself", "they", "them", "their", "theirs", "themselves",
   "what", "which", "who", "whom", "this", "that", "these", "those",
   "am", "is", "are", "was", "were", "be", "been", "being", "have",
   "has", "had", "having", "do", "does", "did", "doing", "a", "an",
   "the", "and", "but", "if", "or", "because", "as", "until", "while",
   "of", "at", "by", "for", "with", "about", "against", "between",
   "into", "through", "during", "before", "after", "above", "below",
   "to", "from", "up", "down", "in", "out", "on", "off", "over",
   "under", "again", "further", "then", "once", "here", "there",
   "when", "where", "why", "how", "all", "any", "both", "each",
   "few", "more", "most", "other", "some", "such", "no", "nor",
   "not", "only", "own", "same", "so", "than", "too", "very",
   "s", "t", "can", "will", "just", "don", "should", "now", "app"]

/-- `extractKeywords(text)` from `server.js`: falsy-text guard, tokenize,
then keep the words that are not stop words and are longer than 3
characters (`word.length > 3` in the source). -/
def extractKeywords (text : Option String) : List String :=
  match text with
  | none => []
  | some s =>
    if s = "" then []
    else (jsWordMatches s).filter
      (fun w => !(srvStopWords.contains w) && decide (3 < w.length))

/-- Stop-word list of `extractReviewKeywords` in the review-insights
variant. -/
def p0StopWords : List String :=
  ["a", "an", "the", "and", "but", "or", "for", "nor", "on", "at", "to", "by",
   "i", "me", "my", "mine", "you", "your", "yours", "he", "him", "his", "she",
   "her", "hers", "it", "its", "we", "us", "our", "ours", "they", "them", "their",
   "theirs", "this", "that", "these", "those", "is", "are", "was", "were", "be",
   "been", "being", "have", "has", "had", "do", "does", "did", "will", "would",
   "shall", "should", "can", "could", "may", "might", "must", "of", "in", "out",
   "about", "up", "down", "off", "over", "under", "again", "further", "then",
   "once", "here", "there", "when", "where", "why", "how", "all", "any", "both",
   "each", "few", "more", "most", "other", "some", "such", "no", "nor", "not",
   "only", "own", "same", "so", "than", "too", "very", "s", "t", "just", "don",
   "now", "app", "get", "use", "make", "with", "from", "really", "good", "bad",
   "great", "awesome", "terrible", "like", "love", "hate", "best", "worst",
   "nice", "amazing"]

/-- The per-word filter of `extractReviewKeywords`: strictly longer than 2
characters and not a stop word (`word.length > 2 && !stopWords.includes(word)`). -/
def p0passes (w : String) : Bool :=
  decide (2 < w.length) && !(p0StopWords.contains w)

/-- `Array.prototype.join(' ')`. -/
def joinSpace : List String → String
  | [] => ""
  | [t] => t
  | t :: ts => t ++ " " ++ joinSpace ts

/-- The combined token stream of `extractReviewKeywords`:
`reviewTexts.join(' ').toLowerCase().match(/\b(\w+)\b/g) || []`. -/
def p0Words (texts : List String) : List String := jsWordMatches (joinSpace texts)

/-- The `wordCounts` object: count every token that passes the filter. -/
def p0WordCounts (ws : List String) : List (String × Nat) :=
  ws.foldl (fun o w => if p0passes w then jsIncrBy o w 1 else o) []

/-- The adjacent index pairs `(words[i], words[i+1])` visited by the bigram
loop. -/
def adjPairs : List String → List (String × String)
  | a :: b :: rest => (a, b) :: adjPairs (b :: rest)
  | _ => []

/-- The `bigrams` array: a pair of *raw-adjacent* tokens is joined with a
space when both components are longer than 2 characters and neither is a
stop word (the loop condition verbatim). -/
def p0Bigrams (ws : List String) : List String :=
  (adjPairs ws).filterMap (fun p =>
    if decide (2 < p.1.length) && decide (2 < p.2.length) &&
        !(p0StopWords.contains p.1) && !(p0StopWords.contains p.2) then
      some (p.1 ++ " " ++ p.2)
    else none)

/-- The `bigramCounts` object. -/
def p0BigramCounts (bs : List String) : List (String × Nat) :=
  bs.foldl (fun o b => jsIncrBy o b 1) []

/-- `{ ...wordCounts, ...bigramCounts }`: assign the enumerated entries of
both count objects into a fresh object, in enumeration order. -/
def p0Combined (ws : List String) : List (String × Nat) :=
  objFromList (jsEntries (p0WordCounts ws) ++ jsEntries (p0BigramCounts (p0Bigrams ws)))

/-- `extractReviewKeywords(reviewTexts)`: combined counts, stable sort by
count descending (`.sort((a, b) => b[1] - a[1])`), `slice(0, 30)`, rebuilt
into an object whose enumeration order is the table handed back. -/
def extractReviewKeywords (texts : List String) : List (String × Nat) :=
  jsEntries (objFromList ((sortDesc Prod.snd (p0Combined (p0Words texts))).take 30))

lemma p0WordCounts_memKeys (ws : List String) (w : String) :
    w ∈ jsKeys (p0WordCounts ws) ↔ w ∈ ws ∧ p0passes w := by
  rw [p0WordCounts, cond_bump_fold_eq, bump_fold_memKeys]
  simp [List.mem_filter]

lemma p0passes_iff (w : String) :
    p0passes w = true ↔ 2 < w.length ∧ w ∉ p0StopWords := by
  simp [p0passes]

/-- C4 counterexample: the token `"sky"` has length 3 (so at least 3, i.e.
strictly greater than 2) and is not a stop word, yet the `server.js`
keyword extractor drops it, because that extractor keeps only tokens with
`length > 3`. This refutes the claim that the keyword paths keep exactly
the tokens of length at least 3 that are not stop words. -/
theorem claim4_counterexample :
    ¬ (∀ w : String, w ∈ extractKeywords (some "sky") ↔
        (w ∈ jsWordMatches "sky" ∧ 2 < w.length ∧ w ∉ srvStopWords)) := by
  intro h
  have h3 := (h "sky").mpr (by decide)
  exact absurd h3 (by decide)

/-- C4 amended: the review-insights tokenizer (`extractReviewKeywords`)
keeps exactly the lowercased `\w+` tokens of length strictly greater than 2
that are not in its stop-word list — those and only those appear in the
word-count table; the `server.js` extractor (`extractKeywords`) instead
keeps exactly the tokens of length strictly greater than 3 that are not in
its stop-word list. -/
theorem claim4_token_filter :
    (∀ (texts : List String) (w : String),
      w ∈ jsKeys (p0WordCounts (p0Words texts)) ↔
        (w ∈ p0Words texts ∧ 2 < w.length ∧ w ∉ p0StopWords)) ∧
    (∀ (s : String) (w : String),
      w ∈ extractKeywords (some s) ↔
        (w ∈ jsWordMatches s ∧ w ∉ srvStopWords ∧ 3 < w.length)) := by
  constructor
  · intro texts w
    rw [p0WordCounts_memKeys, p0passes_iff]
  · intro s w
    by_cases hs : s = ""
    · subst hs
      rw [show jsWordMatches "" = [] from rfl]
      simp [extractKeywords]
    · simp [extractKeywords, hs, List.mem_filter]

lemma adjPairs_mem_iff (ws : List String) (a b : String) :
    (a, b) ∈ adjPairs ws ↔ ∃ l r, ws = l ++ a :: b :: r := by
  induction ws with
  | nil =>
    simp only [adjPairs, List.not_mem_nil, false_iff]
    rintro ⟨l, r, h⟩
    exact absurd h.symm (by simp)
  | cons w ws ih =>
    cases ws with
    | nil =>
      simp only [adjPairs, List.not_mem_nil, false_iff]
      rintro ⟨l, r, h⟩
      have := congrArg List.length h
      simp [List.length_append] at this
      omega
    | cons w2 rest =>
      simp only [adjPairs, List.mem_cons, Prod.mk.injEq]
      constructor
      · rintro (⟨rfl, rfl⟩ | hmem)
        · exact ⟨[], rest, rfl⟩
        · rcases ih.mp hmem with ⟨l, r, h⟩
          exact ⟨w :: l, r, by simp [h]⟩
      · rintro ⟨l, r, h⟩
        cases l with
        | nil =>
          simp only [List.nil_append, List.cons.injEq] at h
          exact Or.inl ⟨h.1.symm, h.2.1.symm⟩
        | cons x l' =>
          simp only [List.cons_append, List.cons.injEq] at h
          exact Or.inr (ih.mpr ⟨l', r, h.2⟩)

lemma bool_regroup (x y z w : Bool) :
    (x && y && z && w) = ((x && z) && (y && w)) := by
  cases x <;> cases y <;> cases z <;> cases w <;> rfl

lemma p0Bigrams_mem_iff (ws : List String) (s : String) :
    s ∈ p0Bigrams ws ↔
      ∃ a b, s = a ++ " " ++ b ∧ (a, b) ∈ adjPairs ws ∧
        p0passes a = true ∧ p0passes b = true := by
  simp only [p0Bigrams, List.mem_filterMap]
  constructor
  · rintro ⟨⟨a, b⟩, hmem, heq⟩
    dsimp only at heq
    by_cases hcond : (decide (2 < a.length) && decide (2 < b.length) &&
        !p0StopWords.contains a && !p0StopWords.contains b) = true
    · rw [if_pos hcond] at heq
      have hre : ((decide (2 < a.length) && !p0StopWords.contains a) &&
          (decide (2 < b.length) && !p0StopWords.contains b)) = true := by
        rw [← bool_regroup]; exact hcond
      rcases Bool.and_eq_true _ _ |>.mp hre with ⟨ha, hb⟩
      exact ⟨a, b, (Option.some.inj heq).symm, hmem, ha, hb⟩
    · rw [if_neg hcond] at heq
      exact absurd heq (by simp)
  · rintro ⟨a, b, rfl, hmem, ha, hb⟩
    refine ⟨(a, b), hmem, ?_⟩
    dsimp only
    have hcond : (decide (2 < a.length) && decide (2 < b.length) &&
        !p0StopWords.contains a && !p0StopWords.contains b) = true := by
      rw [bool_regroup]
      exact Bool.and_eq_true _ _ |>.mpr ⟨ha, hb⟩
    rw [if_pos hcond]

lemma p0BigramCounts_memKeys (bs : List String) (s : String) :
    s ∈ jsKeys (p0BigramCounts bs) ↔ s ∈ bs := by
  rw [p0BigramCounts, bump_fold_memKeys]
  simp

/-- C6 counterexample: in the text `"alpha the beta"` the tokens `"alpha"`
and `"beta"` are consecutive in the filtered token stream (the stop word
`"the"` is dropped), yet no bigram `"alpha beta"` is produced, because the
code forms bigrams from raw adjacency. This refutes the claim that a
bigram appears exactly when its halves are consecutive among the filtered
tokens. -/
theorem claim6_counterexample :
    ¬ (∀ a b : String,
        (a ++ " " ++ b) ∈ jsKeys (p0BigramCounts (p0Bigrams (p0Words ["alpha the beta"]))) ↔
          ∃ l r, (p0Words ["alpha the beta"]).filter p0passes = l ++ a :: b :: r) := by
  intro h
  have hmem := (h "alpha" "beta").mpr ⟨[], [], by decide⟩
  exact absurd hmem (by decide)

/-- C6 amended: a bigram term appears in the bigram pool exactly when it is
the space-join of two tokens that are adjacent in the *raw* token stream
and that each individually pass the length/stop-word filter; consecutive
filtered tokens separated by a dropped token do not form a bigram. -/
theorem claim6_bigram_adjacency :
    ∀ (texts : List String) (s : String),
      s ∈ jsKeys (p0BigramCounts (p0Bigrams (p0Words texts))) ↔
        ∃ a b l r, s = a ++ " " ++ b ∧
          p0Words texts = l ++ a :: b :: r ∧
          p0passes a = true ∧ p0passes b = true := by
  intro texts s
  rw [p0BigramCounts_memKeys, p0Bigrams_mem_iff]
  constructor
  · rintro ⟨a, b, rfl, hmem, ha, hb⟩
    rcases (adjPairs_mem_iff _ _ _).mp hmem with ⟨l, r, hws⟩
    exact ⟨a, b, l, r, rfl, hws, ha, hb⟩
  · rintro ⟨a, b, l, r, rfl, hws, ha, hb⟩
    exact ⟨a, b, rfl, (adjPairs_mem_iff _ _ _).mpr ⟨l, r, hws⟩, ha, hb⟩

lemma wordRunsAux_chars :
    ∀ (cs acc : List Char), (∀ c ∈ acc, isWordChar c = true) →
      ∀ run ∈ wordRunsAux cs acc, ∀ c ∈ run, isWordChar c = true := by
  intro cs
  induction cs with
  | nil =>
    intro acc hacc run hrun c hc
    by_cases he : acc.isEmpty
    · simp [wordRunsAux, he] at hrun
    · simp only [wordRunsAux, if_neg he, List.mem_singleton] at hrun
      subst hrun
      exact hacc c (List.mem_reverse.mp hc)
  | cons d ds ih =>
    intro acc hacc run hrun c hc
    by_cases hw : isWordChar d
    · simp only [wordRunsAux, if_pos hw] at hrun
      refine ih (d :: acc) ?_ run hrun c hc
      intro x hx
      rcases List.mem_cons.mp hx with rfl | hx
      · exact hw
      · exact hacc x hx
    · simp only [wordRunsAux, if_neg hw] at hrun
      by_cases he : acc.isEmpty
      · rw [if_pos he] at hrun
        exact ih [] (by simp) run hrun c hc
      · rw [if_neg he] at hrun
        rcases List.mem_cons.mp hrun with rfl | hrun
        · exact hacc c (List.mem_reverse.mp hc)
        · exact ih [] (by simp) run hrun c hc

lemma jsWordMatches_chars (s : String) :
    ∀ w ∈ jsWordMatches s, ∀ c ∈ w.data, isWordChar c = true := by
  intro w hw c hc
  simp only [jsWordMatches, List.mem_map] at hw
  rcases hw with ⟨run, hrun, rfl⟩
  exact wordRunsAux_chars _ [] (by simp) run hrun c hc

lemma jsWordMatches_no_space (s : String) :
    ∀ w ∈ jsWordMatches s, ' ' ∉ w.data := by
  intro w hw hsp
  have h := jsWordMatches_chars s w hw ' ' hsp
  exact absurd h (by decide)

lemma p0Bigrams_space (ws : List String) :
    ∀ b ∈ p0Bigrams ws, ' ' ∈ b.data := by
  intro b hb
  rcases (p0Bigrams_mem_iff ws b).mp hb with ⟨x, y, rfl, _, _, _⟩
  have hsp : (" " : String).data = [' '] := rfl
  simp [String.data_append, hsp]

lemma jsEntries_memKeys {β : Type} (o : List (String × β)) (a : String) :
    a ∈ jsKeys (jsEntries o) ↔ a ∈ jsKeys o :=
  ((jsEntries_perm o).map Prod.fst).mem_iff

lemma jsEntries_keys_nodup {β : Type} (o : List (String × β))
    (h : (jsKeys o).Nodup) : (jsKeys (jsEntries o)).Nodup :=
  (((jsEntries_perm o).map Prod.fst).nodup_iff).mpr h

lemma jsEntries_length {β : Type} (o : List (String × β)) :
    (jsEntries o).length = o.length := (jsEntries_perm o).length_eq

lemma p0WordCounts_getD (ws : List String) (w : String) :
    (jsLookup (p0WordCounts ws) w).getD 0 = (ws.filter p0passes).count w := by
  rw [p0WordCounts, cond_bump_fold_eq, bump_fold_getD]
  simp [jsLookup]

lemma p0BigramCounts_getD (bs : List String) (s : String) :
    (jsLookup (p0BigramCounts bs) s).getD 0 = bs.count s := by
  rw [p0BigramCounts, bump_fold_getD]
  simp [jsLookup]

lemma p0WordCounts_keys_nodup (ws : List String) :
    (jsKeys (p0WordCounts ws)).Nodup := by
  rw [p0WordCounts, cond_bump_fold_eq]
  exact bump_fold_nodup _ _ (by simp)

lemma p0BigramCounts_keys_nodup (bs : List String) :
    (jsKeys (p0BigramCounts bs)).Nodup := by
  rw [p0BigramCounts]
  exact bump_fold_nodup _ _ (by simp)

lemma p0_keys_disjoint (texts : List String) :
    (jsKeys (jsEntries (p0WordCounts (p0Words texts)))).Disjoint
      (jsKeys (jsEntries (p0BigramCounts (p0Bigrams (p0Words texts))))) := by
  intro w hw hwb
  have hw' := ((p0WordCounts_memKeys _ w).mp ((jsEntries_memKeys _ w).mp hw)).1
  have hb' := (p0BigramCounts_memKeys _ w).mp ((jsEntries_memKeys _ w).mp hwb)
  exact jsWordMatches_no_space (joinSpace texts) w hw' (p0Bigrams_space _ w hb')

lemma p0Combined_eq (texts : List String) :
    p0Combined (p0Words texts) =
      jsEntries (p0WordCounts (p0Words texts)) ++
        jsEntries (p0BigramCounts (p0Bigrams (p0Words texts))) := by
  apply objFromList_eq_self
  rw [jsKeys_append, List.nodup_append]
  exact ⟨jsEntries_keys_nodup _ (p0WordCounts_keys_nodup _),
    jsEntries_keys_nodup _ (p0BigramCounts_keys_nodup _),
    p0_keys_disjoint texts⟩

lemma p0Combined_val (texts : List String) (w : String) (c : Nat)
    (h : (w, c) ∈ p0Combined (p0Words texts)) :
    c = ((p0Words texts).filter p0passes).count w +
        (p0Bigrams (p0Words texts)).count w := by
  rw [p0Combined_eq] at h
  rcases List.mem_append.mp h with hu | hb
  · have hu' : (w, c) ∈ p0WordCounts (p0Words texts) :=
      (jsEntries_perm _).mem_iff.mp hu
    have hl := jsLookup_eq_some_of_mem_nodup (p0WordCounts_keys_nodup _) hu'
    have hg := p0WordCounts_getD (p0Words texts) w
    rw [hl] at hg
    simp only [Option.getD_some] at hg
    have hwmem : w ∈ p0Words texts :=
      ((p0WordCounts_memKeys _ w).mp (mem_jsKeys_of_mem hu')).1
    have hz : (p0Bigrams (p0Words texts)).count w = 0 := by
      apply List.count_eq_zero.mpr
      intro hbw
      exact jsWordMatches_no_space (joinSpace texts) w hwmem
        (p0Bigrams_space _ w hbw)
    omega
  · have hb' : (w, c) ∈ p0BigramCounts (p0Bigrams (p0Words texts)) :=
      (jsEntries_perm _).mem_iff.mp hb
    have hl := jsLookup_eq_some_of_mem_nodup (p0BigramCounts_keys_nodup _) hb'
    have hg := p0BigramCounts_getD (p0Bigrams (p0Words texts)) w
    rw [hl] at hg
    simp only [Option.getD_some] at hg
    have hwbig : w ∈ p0Bigrams (p0Words texts) :=
      (p0BigramCounts_memKeys _ w).mp (mem_jsKeys_of_mem hb')
    have hz : ((p0Words texts).filter p0passes).count w = 0 := by
      apply List.count_eq_zero.mpr
      intro hfw
      exact jsWordMatches_no_space (joinSpace texts) w
        (List.mem_filter.mp hfw).1 (p0Bigrams_space _ w hwbig)
    omega

lemma take30_keys_nodup (texts : List String) :
    (jsKeys ((sortDesc Prod.snd (p0Combined (p0Words texts))).take 30)).Nodup := by
  have hT : (jsKeys (sortDesc Prod.snd (p0Combined (p0Words texts)))).Nodup :=
    (((sortDesc_perm Prod.snd _).map Prod.fst).nodup_iff).mpr (objFromList_nodup _)
  have heq : jsKeys ((sortDesc Prod.snd (p0Combined (p0Words texts))).take 30) =
      (jsKeys (sortDesc Prod.snd (p0Combined (p0Words texts)))).take 30 :=
    List.map_take _ _ _
  rw [heq]
  exact hT.sublist (List.take_sublist _ _)

lemma extractReviewKeywords_eq (texts : List String) :
    extractReviewKeywords texts =
      jsEntries ((sortDesc Prod.snd (p0Combined (p0Words texts))).take 30) := by
  rw [extractReviewKeywords, objFromList_eq_self _ (take30_keys_nodup texts)]

/-- Fifty distinct three-letter non-stop-word texts, one keyword each, used
for the truncation scenario of C5. -/
def fiftyKeywords : List String :=
  ["kaa", "kab", "kac", "kad", "kae", "kaf", "kag", "kah", "kai", "kaj",
   "kak", "kal", "kam", "kan", "kao", "kap", "kaq", "kar", "kat", "kau",
   "kav", "kaw", "kax", "kay", "kaz", "kba", "kbb", "kbc", "kbd", "kbe",
   "kbf", "kbg", "kbh", "kbi", "kbj", "kbk", "kbl", "kbm", "kbn", "kbo",
   "kbp", "kbq", "kbr", "kbt", "kbu", "kbv", "kbw", "kbx", "kby", "kbz"]

/-- Modelled on the specification's words for comparison (C5): the merged
unigram and bigram pools in first-encountered order with their occurrence
counts, stably sorted by count descending, truncated to the top 30. -/
def firstOccs (ws : List String) : List String :=
  ws.foldl (fun acc w => if w ∈ acc then acc else acc ++ [w]) []

/-- Occurrence-count pool of a token list, in first-encountered order
(specification-side definition for C5). -/
def specOccCounts (ws : List String) : List (String × Nat) :=
  (firstOccs ws).map (fun w => (w, ws.count w))

/-- The keyword table as the specification describes it (C5):
first-encountered merged pool, stable descending sort, top 30. -/
def specRankedTable (texts : List String) : List (String × Nat) :=
  (sortDesc Prod.snd
    (specOccCounts ((p0Words texts).filter p0passes) ++
      specOccCounts (p0Bigrams (p0Words texts)))).take 30

/-- C5 counterexample: on the single text `"zzz zzz 123"` the code's table
starts with the digit term `"123"` (count 1) before `"zzz"` (count 2),
because a JavaScript object enumerates integer-like keys first; the table
described by the claim (count-descending, ties in first-encountered order)
starts with `"zzz"`. The delivered table is therefore neither
count-descending nor tie-stable, refuting the claim as stated. -/
theorem claim5_counterexample :
    extractReviewKeywords ["zzz zzz 123"] =
      [("123", 1), ("zzz", 2), ("zzz zzz", 1), ("zzz 123", 1)] ∧
    specRankedTable ["zzz zzz 123"] =
      [("zzz", 2), ("123", 1), ("zzz zzz", 1), ("zzz 123", 1)] ∧
    extractReviewKeywords ["zzz zzz 123"] ≠ specRankedTable ["zzz zzz 123"] := by
  refine ⟨by decide, by decide, by decide⟩

/-- C5 amended: the table is the merge of the unigram and bigram pools —
its keys are exactly the filtered unigrams and the raw-adjacency bigrams,
without duplicates, each entry carrying its total occurrence count — stably
sorted by count descending and truncated to the top 30 entries; however the
delivered object is a permutation of that ranked list in which JavaScript
enumeration hoists integer-like terms (digit strings such as `"123"`) to
the front in ascending numeric order, so only tables without digit-only
terms appear in ranked order. With 50 distinct single-occurrence alphabetic
keywords the table has exactly 30 entries ordered by first appearance. -/
theorem claim5_keyword_table :
    (∀ texts : List String,
      (extractReviewKeywords texts).length =
        min 30 (p0Combined (p0Words texts)).length) ∧
    (∀ (texts : List String) (w : String),
      w ∈ jsKeys (p0Combined (p0Words texts)) ↔
        (w ∈ (p0Words texts).filter p0passes ∨ w ∈ p0Bigrams (p0Words texts))) ∧
    (∀ texts : List String, (jsKeys (p0Combined (p0Words texts))).Nodup) ∧
    (∀ (texts : List String) (w : String) (c : Nat),
      (w, c) ∈ extractReviewKeywords texts →
        c = ((p0Words texts).filter p0passes).count w +
            (p0Bigrams (p0Words texts)).count w) ∧
    (∀ texts : List String,
      (extractReviewKeywords texts).Perm
        ((sortDesc Prod.snd (p0Combined (p0Words texts))).take 30)) ∧
    (∀ texts : List String,
      ((sortDesc Prod.snd (p0Combined (p0Words texts))).take 30).Pairwise
        (fun p q => q.2 ≤ p.2)) ∧
    extractReviewKeywords fiftyKeywords =
      (fiftyKeywords.take 30).map (fun w => (w, 1)) := by
  refine ⟨?_, ?_, ?_, ?_, ?_, ?_, by decide⟩
  · intro texts
    rw [extractReviewKeywords_eq, jsEntries_length, List.length_take,
      (sortDesc_perm Prod.snd _).length_eq]
  · intro texts w
    rw [p0Combined_eq, jsKeys_append, List.mem_append,
      jsEntries_memKeys, jsEntries_memKeys, p0WordCounts_memKeys,
      p0BigramCounts_memKeys]
    rw [← List.mem_filter (p := p0passes)]
  · intro texts
    exact objFromList_nodup _
  · intro texts w c h
    rw [extractReviewKeywords_eq] at h
    have h1 : (w, c) ∈ (sortDesc Prod.snd (p0Combined (p0Words texts))).take 30 :=
      (jsEntries_perm _).mem_iff.mp h
    have h2 : (w, c) ∈ sortDesc Prod.snd (p0Combined (p0Words texts)) :=
      (List.take_sublist _ _).subset h1
    exact p0Combined_val texts w c ((sortDesc_perm Prod.snd _).mem_iff.mp h2)
  · intro texts
    rw [extractReviewKeywords_eq]
    exact jsEntries_perm _
  · intro texts
    exact (sortDesc_pairwise Prod.snd _).sublist (List.take_sublist _ _)

/-- Witness for C5: the entry-count characterization applied at a concrete
input. -/
theorem claim5_witness :
    ("kaa", 1) ∈ extractReviewKeywords ["kaa"] ∧
    (1 : Nat) = ((p0Words ["kaa"]).filter p0passes).count "kaa" +
        (p0Bigrams (p0Words ["kaa"])).count "kaa" :=
  ⟨by decide, claim5_keyword_table.2.2.2.1 ["kaa"] "kaa" 1 (by decide)⟩

/-! ## Review analysis (`analyzeAndroidReviews` / `analyzeIOSReviews` in the
review-insights variant, and the aggregation steps of the `analyze_reviews`
handler in `server.js`) -/

/-- The five sentiment labels, in the fixed key order of the
`sentimentCounts` object of `server.js`. -/
def sentimentLabels : List String :=
  ["positive", "somewhat positive", "neutral", "somewhat negative", "negative"]

/-- `parseFloat(x.toFixed(2))`, modelled as rounding half-up to two
decimals over the rationals. -/
def round2 (q : ℚ) : ℚ := (round (q * 100) : ℤ) / 100

/-- The `sentimentBreakdown` of the `analyze_reviews` handler of
`server.js`: for each label, the percentage of reviews with that sentiment,
with the zero-batch guard `totalReviews ? … : 0`. Counting through the
fixed-key `sentimentCounts` object is modelled by `List.count`, since every
classified sentiment is one of the five preset keys. -/
def serverSentimentBreakdown (reviewTexts : List (Option String)) :
    List (String × ℚ) :=
  let sentiments := reviewTexts.map analyzeSentiment
  sentimentLabels.map (fun lab =>
    (lab, round2 (if reviewTexts.length = 0 then 0
      else ((sentiments.count lab : ℚ) / (reviewTexts.length : ℚ)) * 100)))

/-- `o[k] = (o[k] || 0) + 1` over an association list with keys of any
decidable type (the integer- and score-keyed rating histograms). -/
def assocBump {κ : Type} [DecidableEq κ] : List (κ × Nat) → κ → List (κ × Nat)
  | [], k => [(k, 1)]
  | p :: ps, k => if p.1 = k then (p.1, p.2 + 1) :: ps else p :: assocBump ps k

/-- The `ratingDistribution` of the `analyze_reviews` handler: buckets 1–5
preset to zero, each review's floored score bucketed when it lies in 1–5. -/
def serverRatingDistribution (scores : List ℚ) : List (Int × Nat) :=
  scores.foldl (fun o q =>
    if 1 ≤ ⌊q⌋ ∧ ⌊q⌋ ≤ 5 then assocBump o ⌊q⌋ else o)
    [(1, 0), (2, 0), (3, 0), (4, 0), (5, 0)]

/-- A Google-Play review as consumed by `analyzeAndroidReviews`. -/
structure AndroidReview where
  score : ℚ
  text : Option String
  version : Option String
  thumbsUp : Option Nat
deriving DecidableEq

/-- An App-Store review as consumed by `analyzeIOSReviews`. -/
structure IOSReview where
  score : ℚ
  text : Option String
  version : Option String
deriving DecidableEq

/-- The app-details fields the two analyzers read. -/
structure AppDetails where
  appId : String
  id : String
  title : String
  reviews : Option Nat
  score : ℚ
  histogram : List (Int × Nat)
deriving DecidableEq

/-- `reviews.map(r => r.text).filter(Boolean)`: keep the truthy texts. -/
def truthyTexts (ts : List (Option String)) : List String :=
  ts.filterMap (fun t =>
    match t with
    | none => none
    | some s => if s = "" then none else some s)

/-- Accumulator of one `versionFeedback` group before the second pass
(`averageScore` is a placeholder until then). -/
structure VFAcc where
  count : Nat
  totalScore : ℚ
  keywords : List (String × Nat)
deriving DecidableEq

/-- One finalized `versionFeedback` group. -/
structure VersionFB where
  count : Nat
  totalScore : ℚ
  averageScore : JSNum
  keywords : List (String × Nat)
deriving DecidableEq

/-- `Object.keys(versionKeywords).forEach(k => o[k] = (o[k] || 0) + versionKeywords[k])`:
`extractReviewKeywords` already returns entries in enumeration order with
unique keys, so the traversal folds over those pairs. -/
def vfMergeKeywords (o : List (String × Nat)) (kw : List (String × Nat)) :
    List (String × Nat) :=
  kw.foldl (fun o p => jsIncrBy o p.1 p.2) o

/-- One iteration of the `versionFeedback` grouping loop, generic in how a
review exposes its score, version and text (shared by both platforms):
skip falsy versions, create the group on demand, bump count and total
score, and merge the keywords of a truthy text. -/
def vfStep {α : Type} (score : α → ℚ) (version : α → Option String)
    (text : α → Option String) (o : List (String × VFAcc)) (r : α) :
    List (String × VFAcc) :=
  match version r with
  | none => o
  | some v =>
    if v = "" then o
    else
      let cur := (jsLookup o v).getD ⟨0, 0, []⟩
      jsSet o v
        ⟨cur.count + 1, cur.totalScore + score r,
          match text r with
          | none => cur.keywords
          | some t =>
            if t = "" then cur.keywords
            else vfMergeKeywords cur.keywords (extractReviewKeywords [t])⟩

/-- The second `versionFeedback` pass: compute each group's average score
and replace its keyword object by the top-10 table
(`Object.entries(...).sort(desc).slice(0, 10)` rebuilt into an object). -/
def vfFinalize (o : List (String × VFAcc)) : List (String × VersionFB) :=
  o.map (fun p =>
    (p.1, ⟨p.2.count, p.2.totalScore,
      jsDiv p.2.totalScore (p.2.count : ℚ),
      jsEntries (objFromList
        ((sortDesc Prod.snd (jsEntries p.2.keywords)).take 10))⟩))

/-- `(review.thumbsUp || 0)`, the sort key of the engagement step. -/
def thumbsKey (r : AndroidReview) : Nat := r.thumbsUp.getD 0

/-- The `positive / neutral / negative` score-bucket counts. -/
structure SentCounts where
  positive : Nat
  neutral : Nat
  negative : Nat
deriving DecidableEq

/-- The `recentSentiment` record (bucket counts plus average score). -/
structure RecentSent where
  positive : Nat
  neutral : Nat
  negative : Nat
  averageScore : JSNum
deriving DecidableEq

/-- The `engagement` record of the Android analyzer. -/
structure Engagement where
  totalThumbsUp : Nat
  averageThumbsUp : JSNum
  mostHelpfulReview : Option AndroidReview
deriving DecidableEq

/-- The report object returned by `analyzeAndroidReviews`. -/
structure AndroidReport where
  appId : String
  title : String
  totalReviews : Nat
  averageScore : ℚ
  reviewCount : Nat
  sampleAverageScore : JSNum
  overallSentiment : String
  ratingsDistribution : List (Int × Nat)
  sentimentAnalysis : SentCounts
  recentSentiment : RecentSent
  trend : String
  commonKeywords : List (String × Nat)
  versionFeedback : List (String × VersionFB)
  engagement : Engagement
  topPositiveReview : Option AndroidReview
  topNegativeReview : Option AndroidReview
deriving DecidableEq

/-- The report object returned by `analyzeIOSReviews`. -/
structure IOSReport where
  appId : String
  id : String
  title : String
  totalReviews : Nat
  averageScore : ℚ
  reviewCount : Nat
  sampleAverageScore : JSNum
  overallSentiment : String
  ratingsDistribution : List (ℚ × Nat)
  ratingsHistogram : List (Int × Nat)
  sentimentAnalysis : SentCounts
  recentSentiment : RecentSent
  trend : String
  commonKeywords : List (String × Nat)
  versionFeedback : List (String × VersionFB)
  topPositiveReview : Option IOSReview
  topNegativeReview : Option IOSReview
deriving DecidableEq

/-- `ratingCount` of the Android analyzer: buckets 1–5 preset to zero, each
review bucketed at `Math.round(review.score)` (new buckets appended). -/
def androidRatingCount (reviews : List AndroidReview) : List (Int × Nat) :=
  reviews.foldl (fun o r => assocBump o (round r.score))
    [(1, 0), (2, 0), (3, 0), (4, 0), (5, 0)]

/-- `analyzeAndroidReviews(reviews, appDetails)`. The steps appear in
source order; the engagement step's `reviews.sort(...)` sorts the batch
*in place* (stably, by thumbs-up count descending), so every later step —
recent reviews, trend, top reviews — reads the re-ordered array, which is
also returned as the final state of the caller's batch (second component). -/
def analyzeAndroidReviews (reviews : List AndroidReview)
    (appDetails : AppDetails) : AndroidReport × List AndroidReview :=
  let ratingCount := androidRatingCount reviews
  let totalScore : ℚ := (reviews.map (fun r => r.score)).sum
  let keywords := extractReviewKeywords (truthyTexts (reviews.map (fun r => r.text)))
  let versionFeedback :=
    jsEntries (vfFinalize (reviews.foldl
      (vfStep (fun r => r.score) (fun r => r.version) (fun r => r.text)) []))
  let sentiment : SentCounts :=
    ⟨(reviews.filter (fun r => r.score ≥ 4)).length,
     (reviews.filter (fun r => r.score = 3)).length,
     (reviews.filter (fun r => r.score ≤ 2)).length⟩
  let sorted := sortDesc thumbsKey reviews
  let engagement : Engagement :=
    ⟨(reviews.map thumbsKey).sum,
     jsDiv ((reviews.map thumbsKey).sum : ℚ) (reviews.length : ℚ),
     sorted.head?⟩
  let recentReviews := sorted.take (min 20 sorted.length)
  let recentSentiment : RecentSent :=
    ⟨(recentReviews.filter (fun r => r.score ≥ 4)).length,
     (recentReviews.filter (fun r => r.score = 3)).length,
     (recentReviews.filter (fun r => r.score ≤ 2)).length,
     jsDiv ((recentReviews.map (fun r => r.score)).sum) ((recentReviews.length : ℚ))⟩
  let overallTrend :=
    if jsGtB recentSentiment.averageScore (jsDiv totalScore (reviews.length : ℚ))
      then "Improving"
    else if jsLtB recentSentiment.averageScore (jsDiv totalScore (reviews.length : ℚ))
      then "Declining"
    else "Stable"
  (⟨appDetails.appId, appDetails.title, appDetails.reviews.getD 0,
    appDetails.score, reviews.length, jsDiv totalScore (reviews.length : ℚ),
    (if sentiment.positive > sentiment.negative then "Positive" else "Negative"),
    ratingCount, sentiment, recentSentiment, overallTrend, keywords,
    versionFeedback, engagement,
    (sortDesc thumbsKey (sorted.filter (fun r => r.score ≥ 4))).head?,
    (sortDesc thumbsKey (sorted.filter (fun r => r.score ≤ 2))).head?⟩,
   sorted)

/-- `ratingCount` of the iOS analyzer: keyed by the raw `review.score`. -/
def iosRatingCount (reviews : List IOSReview) : List (ℚ × Nat) :=
  reviews.foldl (fun o r => assocBump o r.score)
    [(1, 0), (2, 0), (3, 0), (4, 0), (5, 0)]

/-- `analyzeIOSReviews(reviews, appDetails)`: same aggregation but with no
engagement step, hence no in-place sort — recent reviews and the top
positive/negative exemplars use the batch's given order. -/
def analyzeIOSReviews (reviews : List IOSReview) (appDetails : AppDetails) :
    IOSReport :=
  let ratingCount := iosRatingCount reviews
  let totalScore : ℚ := (reviews.map (fun r => r.score)).sum
  let keywords := extractReviewKeywords (truthyTexts (reviews.map (fun r => r.text)))
  let versionFeedback :=
    jsEntries (vfFinalize (reviews.foldl
      (vfStep (fun r => r.score) (fun r => r.version) (fun r => r.text)) []))
  let sentiment : SentCounts :=
    ⟨(reviews.filter (fun r => r.score ≥ 4)).length,
     (reviews.filter (fun r => r.score = 3)).length,
     (reviews.filter (fun r => r.score ≤ 2)).length⟩
  let recentReviews := reviews.take (min 20 reviews.length)
  let recentSentiment : RecentSent :=
    ⟨(recentReviews.filter (fun r => r.score ≥ 4)).length,
     (recentReviews.filter (fun r => r.score = 3)).length,
     (recentReviews.filter (fun r => r.score ≤ 2)).length,
     jsDiv ((recentReviews.map (fun r => r.score)).sum) ((recentReviews.length : ℚ))⟩
  let overallTrend :=
    if jsGtB recentSentiment.averageScore (jsDiv totalScore (reviews.length : ℚ))
      then "Improving"
    else if jsLtB recentSentiment.averageScore (jsDiv totalScore (reviews.length : ℚ))
      then "Declining"
    else "Stable"
  ⟨appDetails.appId, appDetails.id, appDetails.title, appDetails.reviews.getD 0,
   appDetails.score, reviews.length, jsDiv totalScore (reviews.length : ℚ),
   (if sentiment.positive > sentiment.negative then "Positive" else "Negative"),
   ratingCount, appDetails.histogram, sentiment, recentSentiment, overallTrend,
   keywords, versionFeedback,
   (reviews.filter (fun r => r.score ≥ 4)).head?,
   (reviews.filter (fun r => r.score ≤ 2)).head?⟩

/-- The trend rule exactly as the specification words it (§4.5.5): average
of the first 20 scores in batch order against the overall average, with
strict comparisons. -/
def specTrendLabel (scores : List ℚ) : String :=
  let recentAvg := (scores.take 20).sum / ((scores.take 20).length : ℚ)
  let overallAvg := scores.sum / (scores.length : ℚ)
  if recentAvg > overallAvg then "Improving"
  else if recentAvg < overallAvg then "Declining"
  else "Stable"

/-- Fixed app details used by the concrete scenarios. -/
def exDetails : AppDetails := ⟨"app", "id", "title", none, 0, []⟩

lemma jsDiv_of_ne (a b : ℚ) (h : b ≠ 0) : jsDiv a b = JSNum.val (a / b) := by
  simp [jsDiv, h]

lemma take_min_self {α : Type} (l : List α) (n : Nat) :
    l.take (min n l.length) = l.take n := by
  rcases Nat.le_total n l.length with h | h
  · rw [Nat.min_eq_left h]
  · rw [Nat.min_eq_right h, List.take_length,
      List.take_of_length_le h]

/-- The trend if-chain of the analyzers, over an arbitrary score list,
equals the specification's trend rule whenever the batch is non-empty. -/
lemma trend_eq (rs : List ℚ) (h : rs ≠ []) :
    (if jsGtB (jsDiv (rs.take (min 20 rs.length)).sum
          ((rs.take (min 20 rs.length)).length : ℚ))
        (jsDiv rs.sum (rs.length : ℚ)) then "Improving"
     else if jsLtB (jsDiv (rs.take (min 20 rs.length)).sum
          ((rs.take (min 20 rs.length)).length : ℚ))
        (jsDiv rs.sum (rs.length : ℚ)) then "Declining"
     else "Stable") = specTrendLabel rs := by
  have hlen : rs.length ≠ 0 := by simpa [List.length_eq_zero] using h
  have htake : rs.take (min 20 rs.length) = rs.take 20 := take_min_self rs 20
  have hrl : (rs.take 20).length ≠ 0 := by
    rw [List.length_take]; omega
  rw [htake, jsDiv_of_ne _ _ (Nat.cast_ne_zero.mpr hrl),
    jsDiv_of_ne _ _ (Nat.cast_ne_zero.mpr hlen)]
  simp only [specTrendLabel, jsGtB, jsLtB, decide_eq_true_eq]

/-- Twenty 5-star reviews without thumbs up followed by one 1-star review
with ten thumbs up (the C3 scenario). -/
def ex21 : List AndroidReview :=
  List.replicate 20 (⟨5, none, none, none⟩ : AndroidReview) ++
    [⟨1, none, none, some 10⟩]

/-- C3 counterexample: an Android batch of twenty 5-star reviews followed
by one 1-star review with ten thumbs up. In the batch's given order the
first twenty reviews average 5 against an overall average just below it,
so the claimed rule says `"Improving"`; the code answers `"Declining"`,
because the engagement step has already re-sorted the batch by thumbs-up
count before the trend slice is taken. -/
theorem claim3_counterexample :
    (analyzeAndroidReviews ex21 exDetails).1.trend = "Declining" ∧
    specTrendLabel (ex21.map (fun r => r.score)) = "Improving" :=
  ⟨by decide, by decide⟩

/-- C3 amended: for the iOS analyzer the claim holds as stated — the trend
compares the average of the first 20 reviews in the batch's given order
with the overall average, with strict comparisons. For the Android
analyzer the trend is computed the same way but over the batch *after* the
engagement step has stably re-sorted it by thumbs-up count descending. -/
theorem claim3_trend (rsI : List IOSReview) (rsA : List AndroidReview)
    (dI dA : AppDetails) (hI : rsI ≠ []) (hA : rsA ≠ []) :
    (analyzeIOSReviews rsI dI).trend =
      specTrendLabel (rsI.map (fun r => r.score)) ∧
    (analyzeAndroidReviews rsA dA).1.trend =
      specTrendLabel ((sortDesc thumbsKey rsA).map (fun r => r.score)) := by
  constructor
  · show (if jsGtB
        (jsDiv ((rsI.take (min 20 rsI.length)).map (fun r => r.score)).sum
          (((rsI.take (min 20 rsI.length)).length : ℚ)))
        (jsDiv (rsI.map (fun r => r.score)).sum (rsI.length : ℚ)) then "Improving"
      else if jsLtB
        (jsDiv ((rsI.take (min 20 rsI.length)).map (fun r => r.score)).sum
          (((rsI.take (min 20 rsI.length)).length : ℚ)))
        (jsDiv (rsI.map (fun r => r.score)).sum (rsI.length : ℚ)) then "Declining"
      else "Stable") = specTrendLabel (rsI.map (fun r => r.score))
    have hm : ∀ n : Nat, (rsI.take n).map (fun r => r.score) =
        (rsI.map (fun r => r.score)).take n := fun n => List.map_take _ _ _
    have hlen : rsI.length = (rsI.map (fun r => r.score)).length :=
      (List.length_map _ _).symm
    have hlt : (rsI.take (min 20 rsI.length)).length =
        ((rsI.map (fun r => r.score)).take
          (min 20 (rsI.map (fun r => r.score)).length)).length := by
      rw [List.length_take, List.length_take, List.length_map]
    rw [hm, hlt, hlen]
    exact trend_eq _ (by simpa using hI)
  · have hperm := sortDesc_perm thumbsKey rsA
    have hsum : (rsA.map (fun r => r.score)).sum =
        ((sortDesc thumbsKey rsA).map (fun r => r.score)).sum :=
      ((hperm.map (fun r => r.score)).sum_eq).symm
    have hlen : rsA.length = (sortDesc thumbsKey rsA).length := hperm.length_eq.symm
    show (if jsGtB
        (jsDiv (((sortDesc thumbsKey rsA).take
            (min 20 (sortDesc thumbsKey rsA).length)).map (fun r => r.score)).sum
          ((((sortDesc thumbsKey rsA).take
            (min 20 (sortDesc thumbsKey rsA).length)).length : ℚ)))
        (jsDiv (rsA.map (fun r => r.score)).sum (rsA.length : ℚ)) then "Improving"
      else if jsLtB
        (jsDiv (((sortDesc thumbsKey rsA).take
            (min 20 (sortDesc thumbsKey rsA).length)).map (fun r => r.score)).sum
          ((((sortDesc thumbsKey rsA).take
            (min 20 (sortDesc thumbsKey rsA).length)).length : ℚ)))
        (jsDiv (rsA.map (fun r => r.score)).sum (rsA.length : ℚ)) then "Declining"
      else "Stable") =
      specTrendLabel ((sortDesc thumbsKey rsA).map (fun r => r.score))
    have hm : ∀ n : Nat, ((sortDesc thumbsKey rsA).take n).map (fun r => r.score) =
        ((sortDesc thumbsKey rsA).map (fun r => r.score)).take n :=
      fun n => List.map_take _ _ _
    have hlt : ((sortDesc thumbsKey rsA).take
          (min 20 (sortDesc thumbsKey rsA).length)).length =
        (((sortDesc thumbsKey rsA).map (fun r => r.score)).take
          (min 20 ((sortDesc thumbsKey rsA).map (fun r => r.score)).length)).length := by
      rw [List.length_take, List.length_take, List.length_map]
    have hlen2 : (sortDesc thumbsKey rsA).length =
        ((sortDesc thumbsKey rsA).map (fun r => r.score)).length :=
      (List.length_map _ _).symm
    rw [hsum, hlen, hm, hlt, hlen2]
    refine trend_eq _ ?_
    have hnz : (sortDesc thumbsKey rsA).length ≠ 0 := by
      rw [hperm.length_eq]
      simpa [List.length_eq_zero] using hA
    intro hcon
    exact hnz (by rw [List.map_eq_nil_iff.mp hcon]; rfl)

/-- Witness for C3: the amended trend rule applied at singleton batches. -/
theorem claim3_witness :
    (analyzeIOSReviews [⟨5, none, none⟩] exDetails).trend =
      specTrendLabel (([⟨5, none, none⟩] : List IOSReview).map (fun r => r.score)) ∧
    (analyzeAndroidReviews [⟨4, none, none, none⟩] exDetails).1.trend =
      specTrendLabel ((sortDesc thumbsKey [⟨4, none, none, none⟩]).map
        (fun r => r.score)) :=
  claim3_trend [⟨5, none, none⟩] [⟨4, none, none, none⟩] exDetails exDetails
    (by decide) (by decide)

/-- C2 counterexample: on the empty batch the Android analyzer's
`sampleAverageScore` (and likewise its other average fields) is the
JavaScript `NaN` produced by `0/0` — not a well-defined zero — refuting
the claim that every percentage/average field of the empty-batch analysis
is zero. -/
theorem claim2_counterexample :
    (analyzeAndroidReviews ([] : List AndroidReview) exDetails).1.sampleAverageScore =
      JSNum.nan ∧ JSNum.nan ≠ JSNum.val 0 :=
  ⟨by decide, by decide⟩

/-- C2 amended: on the empty batch nothing throws (every embedded function
is total), the guarded `sentimentBreakdown` of `server.js` reports 0 for
all five labels, both rating distributions keep their five zero buckets,
and the trend is `"Stable"` (a `NaN`-vs-`NaN` comparison is false on both
sides); however the unguarded average fields — `sampleAverageScore`,
`recentSentiment.averageScore`, `engagement.averageThumbsUp` — are the
JavaScript `NaN` of `0/0`, not zero. -/
theorem claim2_empty_batch :
    serverSentimentBreakdown [] =
      [("positive", 0), ("somewhat positive", 0), ("neutral", 0),
       ("somewhat negative", 0), ("negative", 0)] ∧
    serverRatingDistribution [] =
      [(1, 0), (2, 0), (3, 0), (4, 0), (5, 0)] ∧
    (analyzeAndroidReviews ([] : List AndroidReview) exDetails).1.ratingsDistribution =
      [(1, 0), (2, 0), (3, 0), (4, 0), (5, 0)] ∧
    (analyzeAndroidReviews ([] : List AndroidReview) exDetails).1.trend = "Stable" ∧
    (analyzeIOSReviews ([] : List IOSReview) exDetails).trend = "Stable" ∧
    (analyzeAndroidReviews ([] : List AndroidReview) exDetails).1.sampleAverageScore =
      JSNum.nan ∧
    (analyzeAndroidReviews ([] : List AndroidReview) exDetails).1.recentSentiment.averageScore =
      JSNum.nan ∧
    (analyzeAndroidReviews ([] : List AndroidReview) exDetails).1.engagement.averageThumbsUp =
      JSNum.nan := by
  refine ⟨by decide, by decide, by decide, by decide, by decide, by decide,
    by decide, by decide⟩

/-- C10 counterexample: a two-review batch whose second review has more
thumbs up. The analyzer returns the batch re-ordered (the in-place
`reviews.sort` of the engagement step), and running the analyzer again on
that mutated batch produces a different report (the keyword table's order
changes) — refuting both purity conjuncts of the claim. -/
theorem claim10_counterexample :
    (analyzeAndroidReviews
        [⟨5, some "alpha", none, some 0⟩, ⟨4, some "beta", none, some 5⟩]
        exDetails).2 ≠
      [⟨5, some "alpha", none, some 0⟩, ⟨4, some "beta", none, some 5⟩] ∧
    (analyzeAndroidReviews
        ((analyzeAndroidReviews
          [⟨5, some "alpha", none, some 0⟩, ⟨4, some "beta", none, some 5⟩]
          exDetails).2) exDetails).1 ≠
      (analyzeAndroidReviews
        [⟨5, some "alpha", none, some 0⟩, ⟨4, some "beta", none, some 5⟩]
        exDetails).1 :=
  ⟨by decide, by decide⟩

/-- C10 amended: the Android analyzer mutates its input batch by stably
re-sorting it in place by thumbs-up count descending; when the batch is
already in that order (for instance when all thumbs-up counts are equal)
the batch comes back unchanged and a second run yields the identical
report. -/
theorem claim10_rerun (rs : List AndroidReview) (d : AppDetails)
    (h : rs.Pairwise (fun a b => thumbsKey b ≤ thumbsKey a)) :
    (analyzeAndroidReviews rs d).2 = rs ∧
    analyzeAndroidReviews ((analyzeAndroidReviews rs d).2) d =
      analyzeAndroidReviews rs d := by
  have h2 : (analyzeAndroidReviews rs d).2 = rs := sortDesc_of_pairwise thumbsKey rs h
  exact ⟨h2, by rw [h2]⟩

/-- Witness for C10: a batch already sorted by thumbs-up count. -/
theorem claim10_witness :
    ((analyzeAndroidReviews
        [⟨5, some "alpha", none, some 5⟩, ⟨4, some "beta", none, some 0⟩]
        exDetails).2 =
      [⟨5, some "alpha", none, some 5⟩, ⟨4, some "beta", none, some 0⟩]) ∧
    analyzeAndroidReviews
        ((analyzeAndroidReviews
          [⟨5, some "alpha", none, some 5⟩, ⟨4, some "beta", none, some 0⟩]
          exDetails).2) exDetails =
      analyzeAndroidReviews
        [⟨5, some "alpha", none, some 5⟩, ⟨4, some "beta", none, some 0⟩]
        exDetails :=
  claim10_rerun _ exDetails (by decide)

/-! ## Version-feedback grouping (C7) -/

lemma vfStep_memKeys {α : Type} (score : α → ℚ) (version : α → Option String)
    (text : α → Option String) (o : List (String × VFAcc)) (r : α) (v : String) :
    v ∈ jsKeys (vfStep score version text o r) ↔
      v ∈ jsKeys o ∨ (v ≠ "" ∧ version r = some v) := by
  unfold vfStep
  cases hv : version r with
  | none => simp
  | some v' =>
    dsimp only
    by_cases hv' : v' = ""
    · subst hv'
      rw [if_pos rfl]
      constructor
      · exact Or.inl
      · rintro (h | ⟨hne, hsome⟩)
        · exact h
        · exact absurd (Option.some.inj hsome).symm hne
    · rw [if_neg hv', mem_jsKeys_jsSet]
      constructor
      · rintro (h | rfl)
        · exact Or.inl h
        · exact Or.inr ⟨hv', rfl⟩
      · rintro (h | ⟨hne, hsome⟩)
        · exact Or.inl h
        · exact Or.inr (Option.some.inj hsome).symm

lemma vfFold_memKeys {α : Type} (score : α → ℚ) (version : α → Option String)
    (text : α → Option String) (rs : List α) (o : List (String × VFAcc))
    (v : String) :
    v ∈ jsKeys (rs.foldl (vfStep score version text) o) ↔
      v ∈ jsKeys o ∨ (v ≠ "" ∧ ∃ r ∈ rs, version r = some v) := by
  induction rs generalizing o with
  | nil => simp
  | cons r rs ih =>
    rw [List.foldl_cons, ih, vfStep_memKeys]
    simp only [List.mem_cons]
    constructor
    · rintro ((h | ⟨hne, hv⟩) | ⟨hne, r', hr', hv⟩)
      · exact Or.inl h
      · exact Or.inr ⟨hne, r, Or.inl rfl, hv⟩
      · exact Or.inr ⟨hne, r', Or.inr hr', hv⟩
    · rintro (h | ⟨hne, r', hr' | hr', hv⟩)
      · exact Or.inl (Or.inl h)
      · exact Or.inl (Or.inr ⟨hne, hr' ▸ hv⟩)
      · exact Or.inr ⟨hne, r', hr', hv⟩

lemma vfFold_nodup {α : Type} (score : α → ℚ) (version : α → Option String)
    (text : α → Option String) (rs : List α) (o : List (String × VFAcc))
    (h : (jsKeys o).Nodup) :
    (jsKeys (rs.foldl (vfStep score version text) o)).Nodup := by
  induction rs generalizing o with
  | nil => simpa
  | cons r rs ih =>
    refine ih _ ?_
    unfold vfStep
    cases version r with
    | none => exact h
    | some v' =>
      dsimp only
      by_cases hv' : v' = ""
      · rw [if_pos hv']; exact h
      · rw [if_neg hv']; exact jsKeys_nodup_jsSet _ _ _ h

lemma vfStep_lookup_other {α : Type} (score : α → ℚ) (version : α → Option String)
    (text : α → Option String) (o : List (String × VFAcc)) (r : α) (v : String)
    (h : ¬ version r = some v) :
    jsLookup (vfStep score version text o r) v = jsLookup o v := by
  unfold vfStep
  cases hv : version r with
  | none => rfl
  | some v' =>
    dsimp only
    by_cases hv' : v' = ""
    · rw [if_pos hv']
    · rw [if_neg hv']
      exact jsLookup_jsSet_ne _ _ _ _ (fun hvv => h (hv ▸ hvv ▸ rfl))

/-- Count and total-score bookkeeping of the `versionFeedback` fold. -/
lemma vfFold_count_total {α : Type} (score : α → ℚ) (version : α → Option String)
    (text : α → Option String) (rs : List α) (o : List (String × VFAcc))
    (v : String) (hv : v ≠ "") :
    ((jsLookup (rs.foldl (vfStep score version text) o) v).getD ⟨0, 0, []⟩).count =
      ((jsLookup o v).getD ⟨0, 0, []⟩).count +
        (rs.filter (fun r => decide (version r = some v))).length ∧
    ((jsLookup (rs.foldl (vfStep score version text) o) v).getD ⟨0, 0, []⟩).totalScore =
      ((jsLookup o v).getD ⟨0, 0, []⟩).totalScore +
        ((rs.filter (fun r => decide (version r = some v))).map score).sum := by
  induction rs generalizing o with
  | nil => simp
  | cons r rs ih =>
    rw [List.foldl_cons]
    by_cases hr : version r = some v
    · have hstep : jsLookup (vfStep score version text o r) v =
          some ⟨((jsLookup o v).getD ⟨0, 0, []⟩).count + 1,
            ((jsLookup o v).getD ⟨0, 0, []⟩).totalScore + score r,
            match text r with
            | none => ((jsLookup o v).getD ⟨0, 0, []⟩).keywords
            | some t =>
              if t = "" then ((jsLookup o v).getD ⟨0, 0, []⟩).keywords
              else vfMergeKeywords ((jsLookup o v).getD ⟨0, 0, []⟩).keywords
                (extractReviewKeywords [t])⟩ := by
        unfold vfStep
        rw [hr]
        dsimp only
        rw [if_neg hv]
        exact jsLookup_jsSet_self _ _ _
      rcases ih (vfStep score version text o r) with ⟨hc, ht⟩
      have hfil : (r :: rs).filter (fun r => decide (version r = some v)) =
          r :: rs.filter (fun r => decide (version r = some v)) := by
        simp [List.filter_cons, hr]
      rw [hfil, hc, ht, hstep]
      simp only [Option.getD_some, List.length_cons, List.map_cons, List.sum_cons]
      constructor
      · omega
      · ring
    · rcases ih (vfStep score version text o r) with ⟨hc, ht⟩
      rw [hc, ht, vfStep_lookup_other _ _ _ _ _ _ hr]
      have hfil : (r :: rs).filter (fun r => decide (version r = some v)) =
          rs.filter (fun r => decide (version r = some v)) := by
        simp [List.filter_cons, hr]
      rw [hfil]
      exact ⟨rfl, rfl⟩

lemma vfMergeKeywords_memKeys (o kw : List (String × Nat)) (k : String) :
    k ∈ jsKeys (vfMergeKeywords o kw) ↔ k ∈ jsKeys o ∨ k ∈ jsKeys kw := by
  unfold vfMergeKeywords
  induction kw generalizing o with
  | nil => simp
  | cons p ps ih =>
    rw [List.foldl_cons, ih, mem_jsKeys_jsIncrBy]
    simp only [jsKeys_cons, List.mem_cons]
    tauto

/-- Keyword provenance of the `versionFeedback` fold: every keyword of a
group comes from the per-review keyword table of some truthy text of a
review carrying that version. -/
lemma vfFold_kwKeys {α : Type} (score : α → ℚ) (version : α → Option String)
    (text : α → Option String) (rs : List α) (o : List (String × VFAcc))
    (v k : String)
    (h : k ∈ jsKeys (((jsLookup (rs.foldl (vfStep score version text) o) v).getD
      ⟨0, 0, []⟩).keywords)) :
    k ∈ jsKeys (((jsLookup o v).getD ⟨0, 0, []⟩).keywords) ∨
      ∃ r ∈ rs, version r = some v ∧ ∃ t, text r = some t ∧ t ≠ "" ∧
        k ∈ jsKeys (extractReviewKeywords [t]) := by
  induction rs generalizing o with
  | nil => exact Or.inl h
  | cons r rs ih =>
    rw [List.foldl_cons] at h
    rcases ih (vfStep score version text o r) h with hin | ⟨r', hr', hv', t, ht', hres⟩
    · by_cases hr : version r = some v
      · by_cases hv : v = ""
        · subst hv
          unfold vfStep at hin
          rw [hr] at hin
          dsimp only at hin
          rw [if_pos rfl] at hin
          exact Or.inl hin
        · have hstep : jsLookup (vfStep score version text o r) v =
              some ⟨((jsLookup o v).getD ⟨0, 0, []⟩).count + 1,
                ((jsLookup o v).getD ⟨0, 0, []⟩).totalScore + score r,
                match text r with
                | none => ((jsLookup o v).getD ⟨0, 0, []⟩).keywords
                | some t =>
                  if t = "" then ((jsLookup o v).getD ⟨0, 0, []⟩).keywords
                  else vfMergeKeywords ((jsLookup o v).getD ⟨0, 0, []⟩).keywords
                    (extractReviewKeywords [t])⟩ := by
            unfold vfStep
            rw [hr]
            dsimp only
            rw [if_neg hv]
            exact jsLookup_jsSet_self _ _ _
          rw [hstep] at hin
          simp only [Option.getD_some] at hin
          cases ht : text r with
          | none =>
            rw [ht] at hin
            exact Or.inl hin
          | some t =>
            rw [ht] at hin
            dsimp only at hin
            by_cases hte : t = ""
            · rw [if_pos hte] at hin
              exact Or.inl hin
            · rw [if_neg hte] at hin
              rcases (vfMergeKeywords_memKeys _ _ _).mp hin with hold | hnew
              · exact Or.inl hold
              · exact Or.inr ⟨r, List.mem_cons_self r rs, hr, t, ht, hte, hnew⟩
      · rw [vfStep_lookup_other _ _ _ _ _ _ hr] at hin
        exact Or.inl hin
    · exact Or.inr ⟨r', List.mem_cons_of_mem r hr', hv', t, ht', hres⟩

lemma jsSet_length_le {β : Type} (o : List (String × β)) (k : String) (v : β) :
    (jsSet o k v).length ≤ o.length + 1 := by
  induction o with
  | nil => simp [jsSet]
  | cons p ps ih =>
    by_cases h : p.1 = k
    · simp [jsSet, h]
    · simp only [jsSet, if_neg h, List.length_cons]
      omega

lemma objFromList_length_le {β : Type} (l : List (String × β)) :
    ∀ o : List (String × β),
      (l.foldl (fun o p => jsSet o p.1 p.2) o).length ≤ o.length + l.length := by
  induction l with
  | nil => intro o; simp
  | cons p l ih =>
    intro o
    rw [List.foldl_cons]
    calc (l.foldl (fun o p => jsSet o p.1 p.2) (jsSet o p.1 p.2)).length
        ≤ (jsSet o p.1 p.2).length + l.length := ih _
      _ ≤ o.length + 1 + l.length := by
          have := jsSet_length_le o p.1 p.2; omega
      _ = o.length + (p :: l).length := by simp [List.length_cons]; omega

lemma jsKeys_vfFinalize (o : List (String × VFAcc)) :
    jsKeys (vfFinalize o) = jsKeys o := by
  unfold vfFinalize jsKeys
  rw [List.map_map]
  rfl

/-- Three reviews on version 1.0 (scores 5, 5, 4), two on version 2.0
(scores 1, 2), one without a version (score 3): the C7 scenario. -/
def exC7 : List AndroidReview :=
  [⟨5, none, some "1.0", none⟩, ⟨5, none, some "1.0", none⟩,
   ⟨4, none, some "1.0", none⟩, ⟨1, none, some "2.0", none⟩,
   ⟨2, none, some "2.0", none⟩, ⟨3, none, none, none⟩]

/-- C7: per-version feedback groups exactly the reviews carrying a truthy
version; each group reports its review count, the exact average of its
scores, and a (top-10) keyword table drawn only from that group's texts.
In the concrete scenario, version "1.0" (scores 5,5,4) has count 3 and
average 14/3 — which rounds to 4.67 — and version "2.0" (scores 1,2) has
count 2 and average 3/2 = 1.5; the review without a version belongs to no
group. -/
theorem claim7_version_feedback :
    (∀ (rs : List AndroidReview) (d : AppDetails) (v : String),
      v ∈ jsKeys (analyzeAndroidReviews rs d).1.versionFeedback ↔
        (v ≠ "" ∧ ∃ r ∈ rs, r.version = some v)) ∧
    (∀ (rs : List AndroidReview) (d : AppDetails) (v : String) (fb : VersionFB),
      (v, fb) ∈ (analyzeAndroidReviews rs d).1.versionFeedback →
        fb.count = (rs.filter (fun r => decide (r.version = some v))).length ∧
        fb.totalScore = ((rs.filter (fun r => decide (r.version = some v))).map
          (fun r => r.score)).sum ∧
        fb.averageScore = JSNum.val (fb.totalScore / (fb.count : ℚ)) ∧
        fb.keywords.length ≤ 10 ∧
        (∀ k ∈ jsKeys fb.keywords, ∃ r ∈ rs, r.version = some v ∧
          ∃ t, r.text = some t ∧ k ∈ jsKeys (extractReviewKeywords [t]))) ∧
    jsKeys (analyzeAndroidReviews exC7 exDetails).1.versionFeedback =
      ["1.0", "2.0"] ∧
    jsLookup (analyzeAndroidReviews exC7 exDetails).1.versionFeedback "1.0" =
      some ⟨3, 14, JSNum.val (14 / 3), []⟩ ∧
    jsLookup (analyzeAndroidReviews exC7 exDetails).1.versionFeedback "2.0" =
      some ⟨2, 3, JSNum.val (3 / 2), []⟩ ∧
    round2 ((14 : ℚ) / 3) = 467 / 100 ∧
    round2 ((3 : ℚ) / 2) = 3 / 2 := by
  have hvf : ∀ (rs : List AndroidReview) (d : AppDetails),
      (analyzeAndroidReviews rs d).1.versionFeedback =
        jsEntries (vfFinalize (rs.foldl
          (vfStep (fun r => r.score) (fun r => r.version) (fun r => r.text)) [])) :=
    fun rs d => rfl
  refine ⟨?_, ?_, by decide, by decide, by decide, by decide, by decide⟩
  · intro rs d v
    rw [hvf, jsEntries_memKeys]
    have : v ∈ jsKeys (vfFinalize (rs.foldl
        (vfStep (fun r => r.score) (fun r => r.version) (fun r => r.text)) [])) ↔
        v ∈ jsKeys (rs.foldl
          (vfStep (fun r => r.score) (fun r => r.version) (fun r => r.text)) []) := by
      rw [jsKeys_vfFinalize]
    rw [this, vfFold_memKeys]
    simp
  · intro rs d v fb hmem
    rw [hvf] at hmem
    have hmem2 := (jsEntries_perm _).mem_iff.mp hmem
    simp only [vfFinalize, List.mem_map] at hmem2
    rcases hmem2 with ⟨⟨v', acc⟩, hacc, heq⟩
    have hv' : v' = v := congrArg Prod.fst heq
    subst hv'
    have hfb : fb = ⟨acc.count, acc.totalScore, jsDiv acc.totalScore (acc.count : ℚ),
        jsEntries (objFromList
          ((sortDesc Prod.snd (jsEntries acc.keywords)).take 10))⟩ :=
      (congrArg Prod.snd heq).symm
    have hnodup : (jsKeys (rs.foldl
        (vfStep (fun r => r.score) (fun r => r.version) (fun r => r.text)) [])).Nodup :=
      vfFold_nodup _ _ _ _ _ (by simp)
    have hlook : jsLookup (rs.foldl
        (vfStep (fun r => r.score) (fun r => r.version) (fun r => r.text)) []) v' =
        some acc := jsLookup_eq_some_of_mem_nodup hnodup hacc
    have hvne : v' ≠ "" := by
      have hkey : v' ∈ jsKeys (rs.foldl
          (vfStep (fun r => r.score) (fun r => r.version) (fun r => r.text)) []) :=
        mem_jsKeys_of_mem hacc
      rcases (vfFold_memKeys _ _ _ _ _ _).mp hkey with h | ⟨hne, _⟩
      · simp at h
      · exact hne
    rcases vfFold_count_total (fun r : AndroidReview => r.score)
        (fun r => r.version) (fun r => r.text) rs [] v' hvne with ⟨hc, ht⟩
    rw [hlook] at hc ht
    simp only [Option.getD_some, jsLookup, show (jsLookup ([] : List (String × VFAcc)) v') = none from rfl,
      Option.getD_none] at hc ht
    have hcount : fb.count = (rs.filter (fun r => decide (r.version = some v'))).length := by
      rw [hfb]
      simpa using hc
    have hgroup : (rs.filter (fun r => decide (r.version = some v'))).length ≠ 0 := by
      have hkey : v' ∈ jsKeys (rs.foldl
          (vfStep (fun r => r.score) (fun r => r.version) (fun r => r.text)) []) :=
        mem_jsKeys_of_mem hacc
      rcases (vfFold_memKeys _ _ _ _ _ _).mp hkey with h | ⟨_, r, hr, hv⟩
      · simp at h
      · intro hlen
        rw [List.length_eq_zero] at hlen
        have : r ∈ rs.filter (fun r => decide (r.version = some v')) :=
          List.mem_filter.mpr ⟨hr, by simp [hv]⟩
        rw [hlen] at this
        simp at this
    refine ⟨hcount, ?_, ?_, ?_, ?_⟩
    · rw [hfb]
      simpa using ht
    · rw [hfb]
      simp only
      have hcnt : acc.count = (rs.filter (fun r => decide (r.version = some v'))).length := by
        simpa using hc
      have hnz : (acc.count : ℚ) ≠ 0 := by
        rw [hcnt]
        exact_mod_cast hgroup
      rw [jsDiv_of_ne _ _ hnz]
    · rw [hfb]
      simp only
      rw [jsEntries_length]
      calc (objFromList ((sortDesc Prod.snd (jsEntries acc.keywords)).take 10)).length
          ≤ 0 + ((sortDesc Prod.snd (jsEntries acc.keywords)).take 10).length :=
            objFromList_length_le _ []
        _ ≤ 10 := by
            rw [List.length_take]
            omega
    · intro k hk
      rw [hfb] at hk
      simp only at hk
      have hk2 : k ∈ jsKeys acc.keywords := by
        have h1 := (jsEntries_memKeys _ k).mp hk
        have h2 := (objFromList_memKeys _ k).mp h1
        have h3 : jsKeys ((sortDesc Prod.snd (jsEntries acc.keywords)).take 10) =
            (jsKeys (sortDesc Prod.snd (jsEntries acc.keywords))).take 10 :=
          List.map_take _ _ _
        rw [h3] at h2
        have h4 := (List.take_sublist _ _).subset h2
        have h5 := ((sortDesc_perm Prod.snd _).map Prod.fst).mem_iff.mp h4
        exact (jsEntries_memKeys _ k).mp h5
      have hkw := vfFold_kwKeys (fun r : AndroidReview => r.score)
        (fun r => r.version) (fun r => r.text) rs [] v' k
        (by rw [hlook]; simpa using hk2)
      rcases hkw with habs | ⟨r, hr, hv, t, ht, _, hkt⟩
      · simp [jsLookup] at habs
      · exact ⟨r, hr, hv, t, ht, hkt⟩

/-- Witness for C7: the group characterization applied to the concrete
scenario's "1.0" group. -/
theorem claim7_witness :
    ("1.0", (⟨3, 14, JSNum.val (14 / 3), []⟩ : VersionFB)) ∈
      (analyzeAndroidReviews exC7 exDetails).1.versionFeedback ∧
    ((⟨3, 14, JSNum.val (14 / 3), []⟩ : VersionFB).count =
        (exC7.filter (fun r => decide (r.version = some "1.0"))).length ∧
      (⟨3, 14, JSNum.val (14 / 3), []⟩ : VersionFB).totalScore =
        ((exC7.filter (fun r => decide (r.version = some "1.0"))).map
          (fun r => r.score)).sum ∧
      (⟨3, 14, JSNum.val (14 / 3), []⟩ : VersionFB).averageScore =
        JSNum.val ((⟨3, 14, JSNum.val (14 / 3), []⟩ : VersionFB).totalScore /
          ((⟨3, 14, JSNum.val (14 / 3), []⟩ : VersionFB).count : ℚ)) ∧
      (⟨3, 14, JSNum.val (14 / 3), []⟩ : VersionFB).keywords.length ≤ 10 ∧
      (∀ k ∈ jsKeys (⟨3, 14, JSNum.val (14 / 3), []⟩ : VersionFB).keywords,
        ∃ r ∈ exC7, r.version = some "1.0" ∧
          ∃ t, r.text = some t ∧ k ∈ jsKeys (extractReviewKeywords [t]))) :=
  ⟨by decide, claim7_version_feedback.2.1 exC7 exDetails "1.0" _ (by decide)⟩

/-! ## Monetization classifier (`determineMonetizationModel` in `server.js`) -/

/-- `basePrice` as the classifier reads it. -/
structure BasePrice where
  isFree : Bool
deriving DecidableEq

/-- `inAppPurchases` as the classifier reads it. -/
structure IAPInfo where
  offers : Bool
deriving DecidableEq

/-- `subscriptions` as the classifier reads it. -/
structure SubsInfo where
  offers : Bool
deriving DecidableEq

/-- The pricing record handed to `determineMonetizationModel`. -/
structure PricingDetails where
  basePrice : BasePrice
  inAppPurchases : IAPInfo
  subscriptions : SubsInfo
  adSupported : Bool
deriving DecidableEq

/-- `determineMonetizationModel(pricingDetails)` from `server.js`,
branch for branch. -/
def determineMonetizationModel (p : PricingDetails) : String :=
  if !p.basePrice.isFree then
    if p.inAppPurchases.offers then "Paid app with in-app purchases"
    else "Paid app (premium)"
  else if p.subscriptions.offers then
    if p.adSupported then "Freemium with ads and subscriptions"
    else "Freemium with subscriptions"
  else if p.inAppPurchases.offers then
    if p.adSupported then "Freemium with ads and in-app purchases"
    else "Freemium with in-app purchases"
  else if p.adSupported then "Free with ads"
  else "Completely free"

/-- The decision table in the order the specification lists it (§4.7):
paid first, then subscriptions, then in-app purchases, then ads, else
completely free — first matching row wins. -/
def specMonetizationModel (p : PricingDetails) : String :=
  if !p.basePrice.isFree && p.inAppPurchases.offers then
    "Paid app with in-app purchases"
  else if !p.basePrice.isFree then "Paid app (premium)"
  else if p.subscriptions.offers && p.adSupported then
    "Freemium with ads and subscriptions"
  else if p.subscriptions.offers then "Freemium with subscriptions"
  else if p.inAppPurchases.offers && p.adSupported then
    "Freemium with ads and in-app purchases"
  else if p.inAppPurchases.offers then "Freemium with in-app purchases"
  else if p.adSupported then "Free with ads"
  else "Completely free"

/-- C8: the classifier equals the specification's ordered decision table on
every pricing record, and in particular every non-free record with
`inAppPurchases.offers = true` is classified "Paid app with in-app
purchases" regardless of its subscription and ad flags. -/
theorem claim8_monetization :
    (∀ p : PricingDetails,
      determineMonetizationModel p = specMonetizationModel p) ∧
    (∀ p : PricingDetails, p.basePrice.isFree = false →
      p.inAppPurchases.offers = true →
      determineMonetizationModel p = "Paid app with in-app purchases") := by
  constructor
  · rintro ⟨⟨free⟩, ⟨iap⟩, ⟨subs⟩, ads⟩
    cases free <;> cases iap <;> cases subs <;> cases ads <;> rfl
  · rintro ⟨⟨free⟩, ⟨iap⟩, ⟨subs⟩, ads⟩ h1 h2
    cases free
    · cases iap
      · exact Bool.noConfusion h2
      · cases subs <;> cases ads <;> rfl
    · exact Bool.noConfusion h1

/-- Witness for C8: a non-free record with in-app purchases, subscriptions
and ads all present. -/
theorem claim8_witness :
    ((⟨⟨false⟩, ⟨true⟩, ⟨true⟩, true⟩ : PricingDetails).basePrice.isFree = false) ∧
    ((⟨⟨false⟩, ⟨true⟩, ⟨true⟩, true⟩ : PricingDetails).inAppPurchases.offers = true) ∧
    determineMonetizationModel ⟨⟨false⟩, ⟨true⟩, ⟨true⟩, true⟩ =
      "Paid app with in-app purchases" :=
  ⟨rfl, rfl, claim8_monetization.2 _ rfl rfl⟩

/-! ## Brand dominance and competition level (`analyze_top_keywords`
handler of `server.js`) -/

/-- The fields of a normalized search result that this analysis reads. -/
structure AppSummary where
  developer : String
  free : Bool
  score : ℚ
deriving DecidableEq

/-- The `developerCounts` object: per-developer app count. -/
def developerCounts (apps : List AppSummary) : List (String × Nat) :=
  apps.foldl (fun o a => jsIncrBy o a.developer 1) []

/-- `Object.entries(developerCounts).sort((a, b) => b[1] - a[1]).map(fst)`. -/
def sortedDevelopers (apps : List AppSummary) : List String :=
  (sortDesc Prod.snd (jsEntries (developerCounts apps))).map Prod.fst

/-- `sortedDevelopers.slice(0, 2)`. -/
def topBrands (apps : List AppSummary) : List String :=
  (sortedDevelopers apps).take 2

/-- `topBrands.reduce((count, brand) => count + developerCounts[brand], 0)`. -/
def topBrandAppsCount (apps : List AppSummary) : Nat :=
  (topBrands apps).foldl (fun c b => c + (jsLookup (developerCounts apps) b).getD 0) 0

/-- `brandDominance = topBrandAppsCount / totalApps`. -/
def brandDominance (apps : List AppSummary) : ℚ :=
  (topBrandAppsCount apps : ℚ) / (apps.length : ℚ)

/-- The competition-level banding, strict-greater-than boundaries. -/
def competitionLevel (apps : List AppSummary) : String :=
  if brandDominance apps > 0.7 then "Low - dominated by major brands"
  else if brandDominance apps > 0.4 then
    "Medium - mix of major brands and independents"
  else "High - diverse set of developers"

/-- Number of apps of a given developer (specification-side). -/
def devCount (apps : List AppSummary) (d : String) : Nat :=
  apps.countP (fun a => a.developer == d)

lemma developerCounts_eq (apps : List AppSummary) :
    developerCounts apps =
      (apps.map (fun a => a.developer)).foldl (fun o w => jsIncrBy o w 1) [] := by
  rw [List.foldl_map]
  rfl

lemma developerCounts_getD (apps : List AppSummary) (d : String) :
    (jsLookup (developerCounts apps) d).getD 0 = devCount apps d := by
  rw [developerCounts_eq, bump_fold_getD]
  simp only [jsLookup, Option.getD_none, Nat.zero_add]
  rw [devCount, List.count, List.countP_map]
  rfl

lemma developerCounts_memKeys (apps : List AppSummary) (d : String) :
    d ∈ jsKeys (developerCounts apps) ↔ ∃ a ∈ apps, a.developer = d := by
  rw [developerCounts_eq, bump_fold_memKeys]
  simp [List.mem_map]

lemma developerCounts_nodup (apps : List AppSummary) :
    (jsKeys (developerCounts apps)).Nodup := by
  rw [developerCounts_eq]
  exact bump_fold_nodup _ _ (by simp)

/-- 70 apps by one developer, one by a second, 29 singletons: dominance
exactly 0.71. -/
def ex71 : List AppSummary :=
  List.replicate 70 (⟨"alpha", true, 0⟩ : AppSummary) ++
    [⟨"bravo", true, 0⟩] ++
    (List.range 29).map (fun i => (⟨Nat.repr i, true, 0⟩ : AppSummary))

/-- 6 apps by one developer, one by a second, 3 singletons: dominance
exactly 0.70. -/
def ex70 : List AppSummary :=
  List.replicate 6 (⟨"alpha", true, 0⟩ : AppSummary) ++
    [⟨"bravo", true, 0⟩, ⟨"xx", true, 0⟩, ⟨"yy", true, 0⟩, ⟨"zz", true, 0⟩]

/-- Five apps by five distinct developers: dominance exactly 0.40. -/
def ex40 : List AppSummary :=
  [⟨"aa", true, 0⟩, ⟨"bb", true, 0⟩, ⟨"cc", true, 0⟩,
   ⟨"dd", true, 0⟩, ⟨"ee", true, 0⟩]

/-- C9: on a batch with at least two distinct developers, the numerator of
`brandDominance` is the combined app count of two distinct developers whose
combined count is maximal over all distinct pairs (the two most-frequent
developers), divided by the total number of apps; and the banding is
strictly greater-than: 0.71 falls in the "Low" band, exactly 0.70 in
"Medium", exactly 0.40 in "High". -/
theorem claim9_brand_dominance :
    (∀ apps : List AppSummary, apps ≠ [] →
      (∃ x ∈ apps, ∃ y ∈ apps, x.developer ≠ y.developer) →
      ∃ d1 d2 : String, d1 ≠ d2 ∧
        topBrandAppsCount apps = devCount apps d1 + devCount apps d2 ∧
        (∀ x y : String, x ≠ y →
          devCount apps x + devCount apps y ≤ devCount apps d1 + devCount apps d2) ∧
        brandDominance apps =
          ((devCount apps d1 + devCount apps d2 : Nat) : ℚ) / (apps.length : ℚ)) ∧
    brandDominance ex71 = 71 / 100 ∧
    competitionLevel ex71 = "Low - dominated by major brands" ∧
    brandDominance ex70 = 7 / 10 ∧
    competitionLevel ex70 = "Medium - mix of major brands and independents" ∧
    brandDominance ex40 = 2 / 5 ∧
    competitionLevel ex40 = "High - diverse set of developers" := by
  refine ⟨?_, by decide, by decide, by decide, by decide, by decide, by decide⟩
  intro apps hne hdist
  rcases hdist with ⟨x, hx, y, hy, hxy⟩
  have hperm0 : sortDesc Prod.snd (jsEntries (developerCounts apps)) ~
      developerCounts apps :=
    (sortDesc_perm _ _).trans (jsEntries_perm _)
  have hxkey : x.developer ∈ jsKeys (developerCounts apps) :=
    (developerCounts_memKeys apps _).mpr ⟨x, hx, rfl⟩
  have hykey : y.developer ∈ jsKeys (developerCounts apps) :=
    (developerCounts_memKeys apps _).mpr ⟨y, hy, rfl⟩
  have hxkey' : x.developer ∈ jsKeys (sortDesc Prod.snd (jsEntries (developerCounts apps))) :=
    ((hperm0.map Prod.fst).mem_iff).mpr hxkey
  have hykey' : y.developer ∈ jsKeys (sortDesc Prod.snd (jsEntries (developerCounts apps))) :=
    ((hperm0.map Prod.fst).mem_iff).mpr hykey
  have hpw := sortDesc_pairwise Prod.snd (jsEntries (developerCounts apps))
  have hnodup : (jsKeys (sortDesc Prod.snd (jsEntries (developerCounts apps)))).Nodup :=
    ((hperm0.map Prod.fst).nodup_iff).mpr (developerCounts_nodup apps)
  cases hes : sortDesc Prod.snd (jsEntries (developerCounts apps)) with
  | nil =>
    rw [hes] at hxkey'
    simp at hxkey'
  | cons e1 tail =>
    cases tail with
    | nil =>
      rw [hes] at hxkey' hykey'
      simp only [jsKeys_cons, jsKeys_nil, List.mem_singleton] at hxkey' hykey'
      exact absurd (hxkey'.trans hykey'.symm) hxy
    | cons e2 rest =>
      rw [hes] at hperm0 hpw hnodup
      have hmem1 : e1 ∈ developerCounts apps :=
        hperm0.mem_iff.mp (by simp)
      have hmem2 : e2 ∈ developerCounts apps :=
        hperm0.mem_iff.mp (by simp)
      have hlk1 : jsLookup (developerCounts apps) e1.1 = some e1.2 :=
        jsLookup_eq_some_of_mem_nodup (developerCounts_nodup apps)
          (by rw [Prod.mk.eta]; exact hmem1)
      have hlk2 : jsLookup (developerCounts apps) e2.1 = some e2.2 :=
        jsLookup_eq_some_of_mem_nodup (developerCounts_nodup apps)
          (by rw [Prod.mk.eta]; exact hmem2)
      have hde1 : devCount apps e1.1 = e1.2 := by
        rw [← developerCounts_getD, hlk1]; rfl
      have hde2 : devCount apps e2.1 = e2.2 := by
        rw [← developerCounts_getD, hlk2]; rfl
      have hne12 : e1.1 ≠ e2.1 := by
        simp only [jsKeys_cons, List.nodup_cons, List.mem_cons] at hnodup
        exact fun h => hnodup.1 (Or.inl h)
      have hpw1 : ∀ z ∈ e2 :: rest, z.2 ≤ e1.2 :=
        (List.pairwise_cons.mp hpw).1
      have hpw2 : ∀ z ∈ rest, z.2 ≤ e2.2 :=
        (List.pairwise_cons.mp (List.pairwise_cons.mp hpw).2).1
      have hAny : ∀ d : String, devCount apps d ≤ e1.2 := by
        intro d
        by_cases hd : d ∈ jsKeys (developerCounts apps)
        · rcases List.mem_map.mp hd with ⟨p, hp, hpd⟩
          have hlk : jsLookup (developerCounts apps) p.1 = some p.2 :=
            jsLookup_eq_some_of_mem_nodup (developerCounts_nodup apps)
              (by rw [Prod.mk.eta]; exact hp)
          have hdc : devCount apps d = p.2 := by
            rw [← hpd, ← developerCounts_getD, hlk]; rfl
          have hpes : p ∈ e1 :: e2 :: rest := hperm0.mem_iff.mpr hp
          rcases List.mem_cons.mp hpes with rfl | hpes'
          · omega
          · have := hpw1 p hpes'; omega
        · have : devCount apps d = 0 := by
            rw [devCount, List.countP_eq_zero]
            intro a ha
            simp only [beq_iff_eq]
            intro hda
            exact hd ((developerCounts_memKeys apps d).mpr ⟨a, ha, hda⟩)
          omega
      have hOther : ∀ d : String, d ≠ e1.1 → devCount apps d ≤ e2.2 := by
        intro d hd1
        by_cases hd : d ∈ jsKeys (developerCounts apps)
        · rcases List.mem_map.mp hd with ⟨p, hp, hpd⟩
          have hlk : jsLookup (developerCounts apps) p.1 = some p.2 :=
            jsLookup_eq_some_of_mem_nodup (developerCounts_nodup apps)
              (by rw [Prod.mk.eta]; exact hp)
          have hdc : devCount apps d = p.2 := by
            rw [← hpd, ← developerCounts_getD, hlk]; rfl
          have hpes : p ∈ e1 :: e2 :: rest := hperm0.mem_iff.mpr hp
          rcases List.mem_cons.mp hpes with rfl | hpes'
          · exact absurd hpd.symm hd1
          · rcases List.mem_cons.mp hpes' with rfl | hpes''
            · omega
            · have := hpw2 p hpes''; omega
        · have : devCount apps d = 0 := by
            rw [devCount, List.countP_eq_zero]
            intro a ha
            simp only [beq_iff_eq]
            intro hda
            exact hd ((developerCounts_memKeys apps d).mpr ⟨a, ha, hda⟩)
          omega
      have htop : topBrandAppsCount apps = devCount apps e1.1 + devCount apps e2.1 := by
        rw [topBrandAppsCount, topBrands, sortedDevelopers, hes]
        simp only [List.map_cons, List.take_succ_cons, List.take_zero,
          List.foldl_cons, List.foldl_nil, developerCounts_getD]
        omega
      have he21 : e2.2 ≤ e1.2 := hpw1 e2 (by simp)
      refine ⟨e1.1, e2.1, hne12, htop, ?_, ?_⟩
      · intro a b hab
        rw [hde1, hde2]
        by_cases ha1 : a = e1.1
        · have hb1 : b ≠ e1.1 := fun h => hab (ha1.trans h.symm)
          have hbb := hOther b hb1
          have haa := hAny a
          omega
        · have haa := hOther a ha1
          by_cases hb1 : b = e1.1
          · have hba := hAny b
            omega
          · have hbb := hOther b hb1
            omega
      · rw [brandDominance, htop]

/-- Witness for C9: the dominance characterization applied to the
five-developer batch. -/
theorem claim9_witness :
    ex40 ≠ [] ∧
    (∃ x ∈ ex40, ∃ y ∈ ex40, x.developer ≠ y.developer) ∧
    (∃ d1 d2 : String, d1 ≠ d2 ∧
      topBrandAppsCount ex40 = devCount ex40 d1 + devCount ex40 d2 ∧
      (∀ a b : String, a ≠ b →
        devCount ex40 a + devCount ex40 b ≤ devCount ex40 d1 + devCount ex40 d2) ∧
      brandDominance ex40 =
        ((devCount ex40 d1 + devCount ex40 d2 : Nat) : ℚ) / (ex40.length : ℚ)) :=
  ⟨by decide, by decide, claim9_brand_dominance.1 ex40 (by decide) (by decide)⟩

end MCPAppStore
